import Mathlib

/-!
# Verification of the Snipe-IT population script

Shallow embedding of `Populate_Snipe_IT.py`. Python strings are modelled as
lists of characters (`PyStr`), Python dicts as association lists with
overwrite-in-place insertion, and timestamps as natural numbers with `0`
playing the role of `datetime.min`. The `strptime`/`strftime` calls of the
Python standard library are external to the program and are abstracted: a
feed row carries the parse outcome of its `Last Report Time` string
(`TimeStr`), and the notes-updating function receives the already formatted
`%Y-%m-%d %H:%M:%S` rendering of the new timestamp.
-/

/-- A Python string: the sequence of its characters. -/
abbrev PyStr := List Char

/-- `str.lower()` (ASCII, which covers every string the script manipulates). -/
def pyLower (s : PyStr) : PyStr := s.map Char.toLower

/-- `str.upper()` (ASCII). -/
def pyUpper (s : PyStr) : PyStr := s.map Char.toUpper

/-- Python `str.strip()` whitespace class. -/
def pySpace (c : Char) : Bool :=
  c = ' ' ∨ c = '\t' ∨ c = '\n' ∨ c = '\r' ∨ c = '\x0b' ∨ c = '\x0c'

/-- `str.strip()`: remove leading and trailing whitespace. -/
def pyStrip (s : PyStr) : PyStr :=
  ((s.dropWhile pySpace).reverse.dropWhile pySpace).reverse

/-- `str.split(sep)` for a one-character separator. -/
def pySplitChar (sep : Char) : PyStr → List PyStr
  | [] => [[]]
  | c :: rest =>
    match pySplitChar sep rest with
    | [] => [[]]
    | h :: t => if c = sep then [] :: h :: t else (c :: h) :: t

/-- Python's substring test `needle in hay`. -/
def pyContainsSub (needle : PyStr) : PyStr → Bool
  | [] => needle.isEmpty
  | c :: rest => List.isPrefixOf needle (c :: rest) || pyContainsSub needle rest

/-- A Python dict as an association list; insertion overwrites in place,
new keys are appended, mirroring CPython's order-preserving dicts. -/
def dget {κ α : Type} [DecidableEq κ] (k : κ) (m : List (κ × α)) : Option α :=
  (m.find? (fun p => decide (p.1 = k))).map (·.2)

/-- Dict assignment `m[k] = v`. -/
def dinsert {κ α : Type} [DecidableEq κ] (k : κ) (v : α) (m : List (κ × α)) :
    List (κ × α) :=
  if m.any (fun p => decide (p.1 = k)) then
    m.map (fun p => if p.1 = k then (k, v) else p)
  else m ++ [(k, v)]

/-- Python truthiness of an optional numeric id (`None` and `0` are falsy). -/
def pyTruthy : Option Nat → Bool
  | some n => n ≠ 0
  | none => false

/-! ## Constants of the script -/

def DEFAULT_CATEGORY_NAME : PyStr := "Desktop".data

def DEFAULT_STATUS_LABEL : PyStr := "Ready to Deploy".data

def CHECKED_OUT_STATUS_LABEL : PyStr := "Deployed".data

def DEFAULT_LOCATION_NAME : PyStr := "Office".data

def TARGET_COMPANY_NAME : PyStr := "NYU - Tandon School of Engineering".data

def SERIAL_SKIP_LIST : List PyStr :=
  ["0123456789".data, "To be filled by O.E.M.".data, "System Serial Number".data]

/-- The marker substring searched for inside an asset's notes. -/
def bigfixMarker : PyStr := "BigFix Last Report:".data

/-! ## `update_bigfix_last_report_in_notes` (source lines 428–448)

`new_report_time.strftime('%Y-%m-%d %H:%M:%S')` is abstracted: the function
receives the formatted timestamp string `timeStr`. -/

/-- The loop of `update_bigfix_last_report_in_notes`: rebuild the line list,
replacing every line containing the marker, and report whether any marker
line was found. -/
def updLinesLoop (newReportLine : PyStr) : List PyStr → List PyStr × Bool
  | [] => ([], false)
  | l :: ls =>
    let r := updLinesLoop newReportLine ls
    if pyContainsSub bigfixMarker l then (newReportLine :: r.1, true)
    else (l :: r.1, r.2)

/-- `update_bigfix_last_report_in_notes(current_notes, new_report_time)`:
split the notes into lines, replace each marker line by the fresh marker
line, append the marker line if none was present, join with newlines and
`strip()` the result. -/
def update_bigfix_last_report_in_notes (current_notes : PyStr) (timeStr : PyStr) :
    PyStr :=
  let lines := pySplitChar '\n' current_notes
  let new_report_line := "BigFix Last Report: ".data ++ timeStr
  let r := updLinesLoop new_report_line lines
  let updated_lines := if r.2 then r.1 else r.1 ++ [new_report_line]
  pyStrip (List.intercalate ['\n'] updated_lines)

/-! ## `extract_netid` (source lines 450–486) -/

/-- `part.split('@')[0]`. -/
def beforeAt (s : PyStr) : PyStr :=
  match pySplitChar '@' s with
  | [] => []
  | h :: _ => h

/-- The inner `for p_inner in parts_inner` loop of `extract_netid`:
return the prefix before `@` of the first part containing `@`, else the
first nonempty part, else fall through. -/
def extractInnerLoop : List PyStr → Option PyStr
  | [] => none
  | p :: rest =>
    if p.contains '@' then some (beforeAt p)
    else if ¬p.isEmpty then some p
    else extractInnerLoop rest

/-- The outer `for part in parts_by_comma` loop of `extract_netid`. -/
def extractLoop : List PyStr → Option PyStr
  | [] => none
  | part :: rest =>
    if List.isPrefixOf ['('] part ∧ List.isSuffixOf [')'] part then
      let inner := pyStrip (part.drop 1).dropLast
      if inner.contains ',' then
        match extractInnerLoop ((pySplitChar ',' inner).map pyStrip) with
        | some r => some r
        | none => extractLoop rest
      else if inner.contains '@' then some (beforeAt inner)
      else if ¬inner.isEmpty then some inner
      else extractLoop rest
    else
      if part.contains '@' then some (beforeAt part)
      else if ¬part.isEmpty then some part
      else extractLoop rest

/-- `extract_netid(text)`: lower-case and strip the text, split it on commas
and return the first candidate produced by the per-part loop. -/
def extract_netid (text : PyStr) : Option PyStr :=
  if text.isEmpty then none
  else
    let t := pyLower (pyStrip text)
    extractLoop ((pySplitChar ',' t).map pyStrip)

/-- The replacement applied to a single notes line. -/
def replaceMarkerLine (timeStr : PyStr) (l : PyStr) : PyStr :=
  if pyContainsSub bigfixMarker l then "BigFix Last Report: ".data ++ timeStr else l

/-! ## Feed rows, timestamp parsing and deduplication (source lines 898–946)

`datetime.strptime(time_str.strip(), '%B %d, %Y %I:%M %p')` is standard
library code external to the script; a row's `Last Report Time` column is
therefore modelled by its parse outcome: the empty string (`missing`), a
non-empty string that `strptime` rejects (`unparseable`), or a string that
parses to a timestamp (`valid`). Timestamps are naturals and `0` stands for
`datetime.min`. -/

inductive TimeStr : Type where
  | missing : TimeStr
  | unparseable : PyStr → TimeStr
  | valid : Nat → TimeStr
deriving DecidableEq

/-- `datetime.min` of the model. -/
def datetimeMin : Nat := 0

/-- `parse_last_report_time` (source lines 417–426): the parsed timestamp,
falling back to `datetime.min` when `strptime` raises `ValueError`. -/
def parse_last_report_time : TimeStr → Nat
  | TimeStr.valid t => t
  | TimeStr.missing => datetimeMin
  | TimeStr.unparseable _ => datetimeMin

/-- A row of the BigFix device feed (the columns the script reads). -/
structure BigfixRow where
  model : PyStr
  manufacturer : PyStr
  deviceType : PyStr
  serial : PyStr
  computerName : PyStr
  lastReportTime : TimeStr
  userName : PyStr
  firefoxUsers : PyStr
  chromeUsers : PyStr
  nyuWifiUsers : PyStr
deriving DecidableEq

/-- `serial.strip().upper()`, the key of `bigfix_data`. -/
def serialUpper (r : BigfixRow) : PyStr := pyUpper (pyStrip r.serial)

/-- The row-level filter of the feed loop: non-blank serial, serial not on
the skip list (case-insensitively), non-empty `Last Report Time`. -/
def rowAccepted (r : BigfixRow) : Bool :=
  ¬(pyStrip r.serial).isEmpty &&
    ¬(SERIAL_SKIP_LIST.map pyUpper).contains (serialUpper r) &&
    r.lastReportTime ≠ TimeStr.missing

/-- Parsed timestamp of a row. -/
def rowTime (r : BigfixRow) : Nat := parse_last_report_time r.lastReportTime

/-- One iteration of the feed loop body acting on the `bigfix_data` dict:
skip rejected rows, insert a new serial, and overwrite an existing serial
only when the parsed time is strictly greater. -/
def bigfixStep (m : List (PyStr × (BigfixRow × Nat))) (r : BigfixRow) :
    List (PyStr × (BigfixRow × Nat)) :=
  if rowAccepted r then
    match dget (serialUpper r) m with
    | none => dinsert (serialUpper r) (r, rowTime r) m
    | some (_, t0) =>
      if rowTime r > t0 then dinsert (serialUpper r) (r, rowTime r) m else m
  else m

/-- `bigfix_data` after streaming the whole feed. -/
def buildBigfixData (rows : List BigfixRow) : List (PyStr × (BigfixRow × Nat)) :=
  rows.foldl bigfixStep []

/-- Reference semantics of the per-serial fold: scan left to right keeping
the current best row, replacing it only on a strictly greater parsed time. -/
def chooseGo (acc : Option (BigfixRow × Nat)) : List BigfixRow → Option (BigfixRow × Nat)
  | [] => acc
  | r :: rs =>
    match acc with
    | none => chooseGo (some (r, rowTime r)) rs
    | some (b, t) => chooseGo (if rowTime r > t then some (r, rowTime r) else some (b, t)) rs

/-- `FirstMax l b`: `b` occurs in `l`, every row before it has a strictly
smaller parsed time and every row after it has a no-greater parsed time —
i.e. `b` is the first row of `l` attaining the maximal parsed time. -/
def FirstMax (l : List BigfixRow) (b : BigfixRow) : Prop :=
  ∃ pre post, l = pre ++ b :: post ∧
    (∀ x ∈ pre, rowTime x < rowTime b) ∧ (∀ x ∈ post, rowTime x ≤ rowTime b)

/-- Witness fixture: a feed row with serial `s1` reporting at time 5. -/
def exRowA : BigfixRow :=
  ⟨"m1".data, "Dell".data, "Desktop".data, "s1".data, "pc1".data,
    TimeStr.valid 5, [], [], [], []⟩

/-- Witness fixture: a second feed row with serial `s1`, also at time 5. -/
def exRowB : BigfixRow :=
  ⟨"m1".data, "Dell".data, "Desktop".data, "S1".data, "pc2".data,
    TimeStr.valid 5, [], [], [], []⟩

/-! ## Directory rows, Snipe-IT user cache, `find_best_netid`
(source lines 488–554) -/

/-- A row of the directory export (the identity columns the script reads). -/
structure DirRow where
  employeeNetId : PyStr
  employeeID : PyStr
  firstName : PyStr
  lastName : PyStr
  email : PyStr
deriving DecidableEq

/-- A cached Snipe-IT user (the fields stored in `snipeit_users` values). -/
structure UserInfo where
  uid : Nat
  username : Option PyStr
  email : PyStr
  firstName : PyStr
  lastName : PyStr
  employeeNum : Option PyStr
deriving DecidableEq

/-- The `snipeit_users` cache: keys are stripped employee numbers and
lower-cased usernames. -/
abbrev UserDict := List (PyStr × UserInfo)

/-- Counter increment `netid_candidates[netid] += 1`. -/
def cbump (n : PyStr) (m : List (PyStr × Nat)) : List (PyStr × Nat) :=
  match dget n m with
  | none => m ++ [(n, 1)]
  | some c => dinsert n (c + 1) m

/-- The inner `for part in parts` loop of `find_best_netid`. -/
def tallyParts (parts : List PyStr) (m : List (PyStr × Nat)) : List (PyStr × Nat) :=
  parts.foldl
    (fun m part =>
      match extract_netid part with
      | some n => cbump n m
      | none => m) m

/-- Tally one fallback column: skipped when empty, otherwise split on
commas, each part stripped and fed to `extract_netid`. -/
def tallyColumn (col : PyStr) (m : List (PyStr × Nat)) : List (PyStr × Nat) :=
  if col.isEmpty then m else tallyParts ((pySplitChar ',' col).map pyStrip) m

/-- `netid_candidates` after the `columns_to_check` loop
(Firefox Users, Chrome Users, nyu Wi-Fi Users, in that order). -/
def netidCandidates (row : BigfixRow) : List (PyStr × Nat) :=
  tallyColumn row.nyuWifiUsers (tallyColumn row.chromeUsers (tallyColumn row.firefoxUsers []))

/-- The comparison underlying
`sorted(netid_candidates.items(), key=lambda item: (-item[1], item[0]))`:
count descending, then NetID ascending. -/
def candKeyLE (a b : PyStr × Nat) : Prop :=
  b.2 < a.2 ∨ (a.2 = b.2 ∧ a.1 ≤ b.1)

instance candKeyLE.decRel : DecidableRel candKeyLE := fun a b =>
  if h1 : b.2 < a.2 then isTrue (Or.inl h1)
  else if h2 : a.2 = b.2 ∧ a.1 ≤ b.1 then isTrue (Or.inr h2)
  else isFalse (fun hh => hh.elim h1 h2)

instance candKeyLE.total : IsTotal (PyStr × Nat) candKeyLE :=
  ⟨fun a b => by
    rcases lt_trichotomy a.2 b.2 with h | h | h
    · exact Or.inr (Or.inl h)
    · rcases le_total a.1 b.1 with h2 | h2
      · exact Or.inl (Or.inr ⟨h, h2⟩)
      · exact Or.inr (Or.inr ⟨h.symm, h2⟩)
    · exact Or.inl (Or.inl h)⟩

instance candKeyLE.trans : IsTrans (PyStr × Nat) candKeyLE :=
  ⟨fun a b c hab hbc => by
    rcases hab with h1 | ⟨h1e, h1l⟩ <;> rcases hbc with h2 | ⟨h2e, h2l⟩
    · exact Or.inl (lt_trans h2 h1)
    · exact Or.inl (h2e ▸ h1)
    · exact Or.inl (by rw [h1e]; exact h2)
    · exact Or.inr ⟨h1e.trans h2e, le_trans h1l h2l⟩⟩

/-- Validation of one candidate against the directory data and the
Snipe-IT user cache (the body of the `for netid, count in sorted_candidates`
loop): the first directory row whose stripped, lower-cased `EmployeeNetId`
equals the candidate, then existence in `snipeit_users` by stripped
`EmployeeID` or by the candidate NetID itself. -/
def qualifies (dir : List DirRow) (users : UserDict) (netid : PyStr) : Bool :=
  match dir.find? (fun d => decide (pyLower (pyStrip d.employeeNetId) = netid)) with
  | none => false
  | some d =>
    let eid := pyStrip d.employeeID
    (¬eid.isEmpty && (dget eid users).isSome) || (dget netid users).isSome

/-- The mutable state of the candidate loop: `max_count_found` (with `none`
encoding the initial `-1`) and `qualifying_netids_at_max_count`. -/
structure FbnState where
  maxCount : Option Nat
  qualAtMax : List PyStr
deriving DecidableEq

/-- The `break` guard `max_count_found != -1 and count < max_count_found`. -/
def fbnBreak (mc : Option Nat) (count : Nat) : Bool :=
  match mc with
  | some m => count < m
  | none => false

/-- The candidate loop of `find_best_netid` over the sorted candidates. -/
def fbnGo (dir : List DirRow) (users : UserDict) :
    List (PyStr × Nat) → FbnState → FbnState
  | [], st => st
  | (netid, count) :: rest, st =>
    if fbnBreak st.maxCount count then st
    else
      fbnGo dir users rest
        (if qualifies dir users netid then
          match st.maxCount with
          | none => ⟨some count, [netid]⟩
          | some m =>
            if count > m then ⟨some count, [netid]⟩
            else if count = m then ⟨st.maxCount, st.qualAtMax ++ [netid]⟩
            else st
        else st)

/-- `find_best_netid(row, directory_data_for_user_lookup, snipeit_users)`:
tally the fallback columns, sort candidates by descending count then NetID,
run the validation loop, and return the single qualifying NetID at the
maximal count — `None` when there is none or more than one.

Python's `sorted` is a stable sort; since the tallied candidates have
pairwise-distinct NetIDs the sort key is injective on them, so the sorted
permutation is unique and `List.insertionSort` computes the same list. -/
def find_best_netid (row : BigfixRow) (dir : List DirRow) (users : UserDict) :
    Option PyStr :=
  let cands := netidCandidates row
  if cands.isEmpty then none
  else
    let st := fbnGo dir users (List.insertionSort candKeyLE cands) ⟨none, []⟩
    match st.qualAtMax with
    | [q] => some q
    | _ => none

/-! ## Reference indexes (main, source lines 776–821 and 959–965) -/

/-- `m` has pairwise-distinct keys, so a name maps to at most one id. -/
def dictKeysNodup {κ α : Type} [DecidableEq κ] (m : List (κ × α)) : Prop :=
  (m.map (·.1)).Nodup

/-- Build one reference index from a remote snapshot: each entity's name is
keyed by `name.lower()` (source lines 781, 805, 810, 815, 820). -/
def buildIndex (snapshot : List (PyStr × Nat)) : List (PyStr × Nat) :=
  snapshot.foldl (fun m p => dinsert (pyLower p.1) p.2 m) []

/-- Append entries created during the run: a created entity's name comes
from a stripped CSV value and is keyed by `name.lower()` (source line 965). -/
def appendCreated (m : List (PyStr × Nat)) (created : List (PyStr × Nat)) :
    List (PyStr × Nat) :=
  created.foldl (fun m p => dinsert (pyLower p.1) p.2 m) m

/-- A reference lookup as performed at every call site: the raw CSV value
is stripped (source lines 957, 975, 1072–1084) and then lower-cased for the
dict `get`. -/
def lookupRef (m : List (PyStr × Nat)) (raw : PyStr) : Option Nat :=
  dget (pyLower (pyStrip raw)) m

/-! ## Taxonomy resolution per device (main, source lines 968–1022 and
1082–1097) -/

/-- Key type of `snipeit_models`:
`(model_name.lower(), manufacturer_id, category_id)` — in the asset phase
the id components come from `dict.get` and may be `None`. -/
abbrev ModelKey := PyStr × Option Nat × Option Nat

/-- The model-collection step for one device (source lines 971–998):
resolve the manufacturer id (skip the model when missing), resolve the
category id falling back to the default category name (skip when even the
default is absent), and produce the model data `(name, manufacturer id,
category id)`. -/
def modelPhaseEntry (row : BigfixRow) (manus cats : List (PyStr × Nat)) :
    Option (PyStr × Nat × Nat) :=
  let mid? := dget (pyLower (pyStrip row.manufacturer)) manus
  if ¬pyTruthy mid? then none
  else
    let cid0? := dget (pyLower (pyStrip row.deviceType)) cats
    let cid? := if pyTruthy cid0? then cid0?
      else dget (pyLower DEFAULT_CATEGORY_NAME) cats
    if ¬pyTruthy cid? then none
    else some (pyStrip row.model, mid?.getD 0, cid?.getD 0)

/-- The asset-phase id resolution for one device (source lines 1082–1097):
manufacturer and category are looked up from the raw (stripped, lowered)
CSV values with no fallback, the model from the triple key; the device is
skipped (`none`) when any of the three is falsy. -/
def assetPhaseIds (row : BigfixRow) (manus cats : List (PyStr × Nat))
    (models : List (ModelKey × Nat)) : Option (Nat × Nat × Nat) :=
  let mid? := dget (pyLower (pyStrip row.manufacturer)) manus
  let cid? := dget (pyLower (pyStrip row.deviceType)) cats
  let modelId? := dget ((pyLower (pyStrip row.model), mid?, cid?) : ModelKey) models
  if pyTruthy mid? ∧ pyTruthy cid? ∧ pyTruthy modelId? then
    some (mid?.getD 0, cid?.getD 0, modelId?.getD 0)
  else none

/-- Witness fixture: manufacturer index holding `dell`. -/
def exManus : List (PyStr × Nat) := [("dell".data, 3)]

/-- Witness fixture: category index holding only the default `desktop`. -/
def exCats : List (PyStr × Nat) := [("desktop".data, 5)]

/-- Witness fixture: model index holding `m1` under Dell/Desktop, as the
model phase would have registered it. -/
def exModels : List (ModelKey × Nat) := [(("m1".data, some 3, some 5), 7)]

/-- Witness fixture: a device whose category `Tablet` is absent remotely. -/
def exRowTablet : BigfixRow :=
  ⟨"m1".data, "Dell".data, "Tablet".data, "s4".data, "pc5".data,
    TimeStr.valid 3, [], [], [], []⟩

/-! ## User resolution for one device (main, source lines 1068–1293) -/

/-- `computer_name_for_asset` (source lines 1072–1074): the stripped
`Computer Name` when present and non-blank, otherwise the stripped serial. -/
def computer_name_for_asset (row : BigfixRow) : PyStr :=
  if ¬row.computerName.isEmpty ∧ ¬(pyStrip row.computerName).isEmpty then
    pyStrip row.computerName
  else pyStrip row.serial

/-- Priority 1 (source lines 1149–1175): the primary `User Name` column,
looked up in the directory data by NetID, then in the Snipe-IT user cache
by Employee-ID first and NetID key second. -/
def priority1 (row : BigfixRow) (dir : List DirRow) (users : UserDict) :
    Option (UserInfo × PyStr) :=
  let primary := pyStrip row.userName
  if primary.isEmpty then none
  else
    match dir.find? (fun d =>
        decide (pyLower (pyStrip d.employeeNetId) = pyLower primary)) with
    | none => none
    | some d =>
      let eid := pyStrip d.employeeID
      if ¬eid.isEmpty ∧ (dget eid users).isSome then
        (dget eid users).map (fun u => (u, primary))
      else (dget (pyLower primary) users).map (fun u => (u, primary))

/-- Priority 2 (source lines 1178–1204): the plurality fallback. When
`find_best_netid` names a candidate, the directory rows are rescanned for
the first row carrying that NetID whose Employee-ID is cached, falling back
to the NetID key. -/
def priority2 (row : BigfixRow) (dir : List DirRow) (users : UserDict) :
    Option (UserInfo × PyStr) :=
  match find_best_netid row dir users with
  | none => none
  | some best =>
    match dir.find? (fun d =>
        decide (pyLower (pyStrip d.employeeNetId) = best) &&
        (¬(pyStrip d.employeeID).isEmpty && (dget (pyStrip d.employeeID) users).isSome)) with
    | some d => (dget (pyStrip d.employeeID) users).map (fun u => (u, best))
    | none => (dget (pyLower best) users).map (fun u => (u, best))

/-- Priority 3 (source lines 1207–1242): NetID embedded in an
`eng-<netid>-...` computer name, validated against the directory data and
the user cache. -/
def priority3 (computerNameLower : PyStr) (dir : List DirRow) (users : UserDict) :
    Option (UserInfo × PyStr) :=
  if List.isPrefixOf "eng-".data computerNameLower ∧
      (computerNameLower.drop 4).contains '-' then
    let parts := pySplitChar '-' computerNameLower
    if parts.length ≥ 2 ∧ parts.headD [] = "eng".data then
      let extracted := (parts.get? 1).getD []
      match dir.find? (fun d =>
          decide (pyLower (pyStrip d.employeeNetId) = extracted)) with
      | none => none
      | some d =>
        let eid := pyStrip d.employeeID
        if ¬eid.isEmpty ∧ (dget eid users).isSome then
          (dget eid users).map (fun u => (u, extracted))
        else (dget (pyLower extracted) users).map (fun u => (u, extracted))
    else none
  else none

/-- One rule of `multi_user_admins.csv`: a lower-cased name-schema prefix
and the admin's lower-cased NetID. -/
structure AdminEntry where
  nameSchema : PyStr
  netid : PyStr
deriving DecidableEq

/-- Priority 4 (source lines 1245–1288): scan the admin rules in order; on
a prefix match validate the rule's NetID, and keep scanning further rules
when validation fails. -/
def priority4 (computerNameLower : PyStr) (dir : List DirRow) (users : UserDict) :
    List AdminEntry → Option (UserInfo × PyStr)
  | [] => none
  | e :: rest =>
    if List.isPrefixOf e.nameSchema computerNameLower then
      match dir.find? (fun d =>
          decide (pyLower (pyStrip d.employeeNetId) = e.netid)) with
      | none => priority4 computerNameLower dir users rest
      | some d =>
        let eid := pyStrip d.employeeID
        if ¬eid.isEmpty ∧ (dget eid users).isSome then
          (dget eid users).map (fun u => (u, e.netid))
        else
          match dget e.netid users with
          | some u => some (u, e.netid)
          | none => priority4 computerNameLower dir users rest
    else priority4 computerNameLower dir users rest

/-- The full resolution chain of `main`: each priority is attempted only
when every earlier one produced no user (`if not snipeit_target_user_info`),
and the first success is kept. -/
def resolveUser (row : BigfixRow) (dir : List DirRow) (users : UserDict)
    (admins : List AdminEntry) : Option (UserInfo × PyStr) :=
  match priority1 row dir users with
  | some r => some r
  | none =>
    match priority2 row dir users with
    | some r => some r
    | none =>
      match priority3 (pyLower (computer_name_for_asset row)) dir users with
      | some r => some r
      | none => priority4 (pyLower (computer_name_for_asset row)) dir users admins

/-! ## Remote hardware state and the per-device workflow
(main, source lines 1068–1383)

The remote Snipe-IT service is modelled by the list of its hardware
records. Matching the claim's premise of a fully successful pass, every
remote call is modelled as succeeding. An asset's free-text notes are
modelled by their `BigFix Last Report:` marker content (`none` when no
marker line is present, which the snapshot loader reads as `datetime.min`).
A direct status update (`update_asset_status` with a status id) sends a
`notes` payload that replaces the whole notes text with a sentence
containing no marker line (source lines 1315–1316), so it clears the
marker; a checkin/checkout's `note` field is an activity note and leaves
the asset's notes field untouched. Only mutating calls (POST/PUT) are
recorded in the trace. -/

structure RemoteAsset where
  aid : Nat
  tag : PyStr
  name : PyStr
  marker : Option Nat
  status : Nat
  assignedTo : Option Nat
deriving DecidableEq

structure Remote where
  assets : List RemoteAsset
  nextId : Nat
deriving DecidableEq

/-- The mutating remote calls issued by the run. -/
inductive Call : Type where
  | createUser (netid : PyStr)
  | createManufacturer (name : PyStr)
  | createModel (name : PyStr)
  | createAsset (tag : PyStr) (name : PyStr)
  | updateAsset (aid : Nat) (statusArg : Option Nat)
  | checkin (aid : Nat)
  | checkout (aid : Nat) (uid : Nat)
deriving DecidableEq

/-- Asset-level (hardware) mutations: create, update, checkin, checkout. -/
def Call.isAssetMutation : Call → Bool
  | Call.createAsset _ _ => true
  | Call.updateAsset _ _ => true
  | Call.checkin _ => true
  | Call.checkout _ _ => true
  | _ => false

/-- The `snipeit_assets` cache entry for an upper-cased serial: the dict
construction keyed by `asset_tag.upper()` keeps the last matching asset
(source lines 833–860). -/
def cacheEntryFor (r : Remote) (s : PyStr) : Option RemoteAsset :=
  (r.assets.filter (fun a => decide (pyUpper a.tag = s))).getLast?

/-- `last_report_time` recovered from the notes marker; an absent or
malformed marker reads as `datetime.min` (source lines 845–852). -/
def cachedTime (a : RemoteAsset) : Nat := a.marker.getD datetimeMin

/-- `get_asset_details_from_snipeit`: the live status and assignment. -/
def getDetails (r : Remote) (aid : Nat) : Nat × Option Nat :=
  match r.assets.find? (fun a => decide (a.aid = aid)) with
  | some a => (a.status, a.assignedTo)
  | none => (0, none)

/-- The live notes marker (`get_asset_details_from_snipeit_raw_notes`). -/
def getMarker (r : Remote) (aid : Nat) : Option Nat :=
  match r.assets.find? (fun a => decide (a.aid = aid)) with
  | some a => a.marker
  | none => none

/-- Apply `f` to the asset with id `aid`, in place. -/
def setAsset (r : Remote) (aid : Nat) (f : RemoteAsset → RemoteAsset) : Remote :=
  { r with assets := r.assets.map (fun a => if a.aid = aid then f a else a) }

/-- The status-normalisation step (source lines 1313–1328): when the live
status is not the check-in status, a direct status update is issued whose
`notes` payload replaces the whole notes text with a sentence containing no
marker line, clearing the marker. -/
def statusFix (dId : Nat) (r : Remote) (aid : Nat) : List Call × Remote :=
  if (getDetails r aid).1 ≠ dId then
    ([Call.updateAsset aid (some dId)],
     setAsset r aid (fun a => { a with status := dId, marker := none }))
  else ([], r)

/-- The check-in step (source lines 1332–1355): when the live assignment is
non-empty a checkin is issued, clearing the assignment and setting the
check-in status; its `note` field is an activity note that leaves the
asset's notes untouched. -/
def checkinStep (dId : Nat) (r : Remote) (aid : Nat) : List Call × Remote :=
  if (getDetails r aid).2 ≠ none then
    ([Call.checkin aid],
     setAsset r aid (fun a => { a with status := dId, assignedTo := none }))
  else ([], r)

/-- The checkout workflow once a user is resolved (source lines
1295–1383): no-op when the live state is already assigned to the user in
the checked-out status; otherwise the status-normalisation step, the
check-in step against the re-fetched state, then the checkout, which also
moves the status to checked-out, so the post-checkout verification passes
and no corrective update is issued. -/
def checkoutWorkflow (dId coId : Nat) (r : Remote) (aid : Nat) (uid : Nat) :
    List Call × Remote :=
  if (getDetails r aid).2 = some uid ∧ (getDetails r aid).1 = coId then ([], r)
  else
    ((statusFix dId r aid).1 ++ (checkinStep dId (statusFix dId r aid).2 aid).1 ++
        [Call.checkout aid uid],
     setAsset (checkinStep dId (statusFix dId r aid).2 aid).2 aid
       (fun a => { a with status := coId, assignedTo := some uid }))

/-- One device's pass through the asset loop (source lines 1068–1383):
find the existing asset by serial or create it (status = default, notes
carrying the feed timestamp marker), patch the notes marker when the feed
time is strictly newer than the cached one and the regenerated notes
differ, then — when a user was resolved — run the checkout workflow
against freshly fetched remote state; with no resolved user the device
stops after create/patch. -/
def processDevice (dId coId : Nat) (r : Remote) (row : BigfixRow)
    (resolved : Option Nat) : List Call × Remote :=
  let serial := pyStrip row.serial
  let feedTime := rowTime row
  match cacheEntryFor r (pyUpper serial) with
  | some ex =>
    let patched : List Call × Remote :=
      if feedTime > cachedTime ex then
        if getMarker r ex.aid ≠ some feedTime then
          ([Call.updateAsset ex.aid none],
           setAsset r ex.aid (fun a => { a with marker := some feedTime }))
        else ([], r)
      else ([], r)
    match resolved with
    | none => patched
    | some uid =>
      let wf := checkoutWorkflow dId coId patched.2 ex.aid uid
      (patched.1 ++ wf.1, wf.2)
  | none =>
    let newAsset : RemoteAsset :=
      ⟨r.nextId, serial, computer_name_for_asset row, some feedTime, dId, none⟩
    let r0 : Remote := ⟨r.assets ++ [newAsset], r.nextId + 1⟩
    let c0 := [Call.createAsset serial (computer_name_for_asset row)]
    match resolved with
    | none => (c0, r0)
    | some uid =>
      let wf := checkoutWorkflow dId coId r0 newAsset.aid uid
      (c0 ++ wf.1, wf.2)

/-- Well-formed remote state: asset ids are pairwise distinct and below the
id the next creation will use. -/
def RemoteWF (r : Remote) : Prop :=
  (r.assets.map (·.aid)).Nodup ∧ ∀ a ∈ r.assets, a.aid < r.nextId

/-! ## The whole run's mutating-call trace (main, source lines 711–1406)

`mainRun` strings the phases of `main` together and returns the sequence
of mutating remote calls the run issues, with the early returns of the
fatal precondition checks. Fresh ids handed out by the remote on creation
are modelled by counters seeded from the environment. The prebuilt
`snipeit_models` snapshot (source lines 823–831) is taken as an
environment input. -/

/-- A remote user row as returned by the paginated `users` fetch. -/
structure RemoteUser where
  ruid : Nat
  username : Option PyStr
  employeeNum : Option PyStr
  email : PyStr
  firstName : PyStr
  lastName : PyStr
deriving DecidableEq

/-- The cached record built for one fetched user (source lines 872–880):
username and email stripped and lower-cased, last name only lower-cased,
employee number stripped. -/
def userCacheEntry (u : RemoteUser) : UserInfo :=
  ⟨u.ruid,
   match u.username with
   | some n => some (pyLower (pyStrip n))
   | none => none,
   pyLower (pyStrip u.email), pyLower (pyStrip u.firstName), pyLower u.lastName,
   match u.employeeNum with
   | some e => some (pyStrip e)
   | none => none⟩

/-- `snipeit_users` after the paginated fetch (source lines 862–886): each
user is stored under its stripped employee number (when truthy) and under
its stripped lower-cased username (when truthy). -/
def buildUserDict (userList : List RemoteUser) : UserDict :=
  userList.foldl
    (fun m u =>
      let m1 := match u.employeeNum with
        | some e => if ¬e.isEmpty then dinsert (pyStrip e) (userCacheEntry u) m else m
        | none => m
      match u.username with
      | some n => if ¬n.isEmpty then dinsert (pyLower (pyStrip n)) (userCacheEntry u) m1 else m1
      | none => m1)
    []

/-- One row of `sync_directory_users_to_snipeit` (source lines 586–699):
skip rows missing any identity field; append the row to the lookup list;
skip duplicates found by employee id, username, or email; otherwise create
the user and cache it under its employee id and (when distinct) its
lower-cased NetID. The state is (created NetIDs, directory lookup list,
user cache, next fresh user id). -/
def syncStep (st : List PyStr × List DirRow × UserDict × Nat) (row : DirRow) :
    List PyStr × List DirRow × UserDict × Nat :=
  if row.employeeID.isEmpty ∨ row.employeeNetId.isEmpty ∨ row.firstName.isEmpty ∨
      row.lastName.isEmpty ∨ row.email.isEmpty then st
  else
    let eid := pyStrip row.employeeID
    let netid := pyStrip row.employeeNetId
    let email := pyStrip row.email
    let dirList := st.2.1 ++ [row]
    let users := st.2.2.1
    let dup :=
      (dget eid users).isSome ||
      users.any (fun p =>
        match p.2.username with
        | some un => ¬un.isEmpty && decide (pyLower un = pyLower netid)
        | none => false) ||
      users.any (fun p => ¬p.2.email.isEmpty && decide (pyLower p.2.email = pyLower email))
    if dup then (st.1, dirList, users, st.2.2.2)
    else
      let info : UserInfo := ⟨st.2.2.2, some (pyLower netid), pyLower email,
        pyLower (pyStrip row.firstName), pyLower (pyStrip row.lastName), some eid⟩
      let users1 := dinsert eid info users
      let users2 :=
        if ¬(pyLower eid = pyLower netid) then dinsert (pyLower netid) info users1
        else users1
      (st.1 ++ [netid], dirList, users2, st.2.2.2 + 1)

/-- Phase 1 of `main`: synchronize the directory rows into the user cache. -/
def syncDirectoryUsers (rows : List DirRow) (users : UserDict) (nextUid : Nat) :
    List PyStr × List DirRow × UserDict × Nat :=
  rows.foldl syncStep ([], [], users, nextUid)

/-- The manufacturer-population phase (source lines 955–966): the distinct
stripped manufacturer names of the deduplicated feed, sorted, each created
when its lower-casing is not in the index. The state is (created names,
manufacturer index, next fresh id). -/
def manuPhase (bigfix : List (PyStr × (BigfixRow × Nat)))
    (manus : List (PyStr × Nat)) (nextId : Nat) :
    List PyStr × List (PyStr × Nat) × Nat :=
  let names := List.insertionSort (fun a b : PyStr => a ≤ b)
    ((((bigfix.map (fun p => p.2.1.manufacturer)).filter
        (fun n => ¬n.isEmpty)).map pyStrip).dedup)
  names.foldl
    (fun st n =>
      if (dget (pyLower n) st.2.1).isSome then st
      else (st.1 ++ [n], dinsert (pyLower n) st.2.2 st.2.1, st.2.2 + 1))
    ([], manus, nextId)

/-- The model-collection loop (source lines 970–998): fold the deduplicated
feed, registering the first resolution of each distinct
`(model, manufacturer, category)` CSV key. -/
def collectModels (bigfix : List (PyStr × (BigfixRow × Nat)))
    (manus cats : List (PyStr × Nat)) :
    List ((PyStr × PyStr × PyStr) × (PyStr × Nat × Nat)) :=
  bigfix.foldl
    (fun acc p =>
      let row := p.2.1
      let key := (pyLower (pyStrip row.model), pyLower (pyStrip row.manufacturer),
        pyLower (pyStrip row.deviceType))
      if (dget key acc).isSome then acc
      else
        match modelPhaseEntry row manus cats with
        | some d => dinsert key d acc
        | none => acc)
    []

/-- The model-creation loop (source lines 1000–1021): create each collected
model absent from the model index. Python iterates the distinct CSV keys in
sorted order; since the keys are pairwise distinct, the created set and the
resulting index are the same for any iteration order, and the collection
order is used here. The state is (created model names, model index, next
fresh id). -/
def modelPhase (collected : List ((PyStr × PyStr × PyStr) × (PyStr × Nat × Nat)))
    (models : List (ModelKey × Nat)) (nextId : Nat) :
    List PyStr × List (ModelKey × Nat) × Nat :=
  collected.foldl
    (fun st e =>
      let key : ModelKey := (pyLower e.2.1, some e.2.2.1, some e.2.2.2)
      if (dget key st.2.1).isSome then st
      else (st.1 ++ [e.2.1], dinsert key st.2.2 st.2.1, st.2.2 + 1))
    ([], models, nextId)

/-- Loading `multi_user_admins.csv` (source lines 1026–1051): keep the rows
with both fields present, stripped and lower-cased. -/
def loadAdmins (rows : List (PyStr × PyStr)) : List AdminEntry :=
  rows.foldl
    (fun acc p =>
      let schema := pyLower (pyStrip p.1)
      let netid := pyLower (pyStrip p.2)
      if ¬schema.isEmpty ∧ ¬netid.isEmpty then acc ++ [⟨schema, netid⟩] else acc)
    []

/-- The per-device asset loop (source lines 1068–1383): skip devices whose
manufacturer, category, or model id is unresolved, resolve a user, and run
the per-device workflow, threading the remote state. -/
def deviceLoop (dId coId : Nat) (dir : List DirRow) (users : UserDict)
    (manus cats : List (PyStr × Nat)) (models : List (ModelKey × Nat))
    (admins : List AdminEntry) :
    List (PyStr × (BigfixRow × Nat)) → Remote → List Call × Remote
  | [], r => ([], r)
  | p :: rest, r =>
    let row := p.2.1
    match assetPhaseIds row manus cats models with
    | none => deviceLoop dId coId dir users manus cats models admins rest r
    | some _ =>
      let resolved := (resolveUser row dir users admins).map (fun x => x.1.uid)
      let res := processDevice dId coId r row resolved
      let tail := deviceLoop dId coId dir users manus cats models admins rest res.2
      (res.1 ++ tail.1, tail.2)

/-- The environment a run starts from: the remote snapshots, the three CSV
files, and the fresh-id seeds the remote will hand out. -/
structure Env where
  statusList : List (PyStr × Nat)
  manuList : List (PyStr × Nat)
  catList : List (PyStr × Nat)
  locList : List (PyStr × Nat)
  compList : List (PyStr × Nat)
  modelList : List (ModelKey × Nat)
  remote : Remote
  userList : List RemoteUser
  dirRows : List DirRow
  bigfixRows : List BigfixRow
  adminRows : List (PyStr × PyStr)
  nextUid : Nat
  nextEntityId : Nat
deriving DecidableEq

/-- The mutating-call trace of one run of `main`: the status-label checks
abort before any mutation (source lines 776–797); user sync, manufacturer
and model population run next; the default-location and target-company
checks abort before the asset loop (source lines 1058–1066). -/
def mainRun (env : Env) : List Call :=
  if env.statusList.isEmpty then []
  else
    let statuses := buildIndex env.statusList
    let dS := dget (pyLower DEFAULT_STATUS_LABEL) statuses
    let cS := dget (pyLower CHECKED_OUT_STATUS_LABEL) statuses
    let kS := dget (pyLower DEFAULT_STATUS_LABEL) statuses
    if ¬pyTruthy dS then []
    else if ¬pyTruthy cS then []
    else if ¬pyTruthy kS then []
    else
      let manus := buildIndex env.manuList
      let cats := buildIndex env.catList
      let locs := buildIndex env.locList
      let comps := buildIndex env.compList
      let users := buildUserDict env.userList
      let sync := syncDirectoryUsers env.dirRows users env.nextUid
      let bigfix := buildBigfixData env.bigfixRows
      let mp := manuPhase bigfix manus env.nextEntityId
      let collected := collectModels bigfix mp.2.1 cats
      let mo := modelPhase collected env.modelList mp.2.2
      let admins := loadAdmins env.adminRows
      let preCalls := sync.1.map Call.createUser ++
        mp.1.map Call.createManufacturer ++ mo.1.map Call.createModel
      if ¬pyTruthy (dget (pyLower DEFAULT_LOCATION_NAME) locs) then preCalls
      else if ¬pyTruthy (dget (pyLower TARGET_COMPANY_NAME) comps) then preCalls
      else preCalls ++
        (deviceLoop (dS.getD 0) (cS.getD 0) sync.2.1 sync.2.2.1 mp.2.1 cats
          mo.2.1 admins bigfix env.remote).1

/-- Witness fixture: an environment whose status labels are present but
whose location list lacks the default `Office`; its directory feed holds
one new user `carol`. -/
def exEnvNoLoc : Env :=
  { statusList := [("Ready to Deploy".data, 1), ("Deployed".data, 2)]
    manuList := []
    catList := []
    locList := []
    compList := [("NYU - Tandon School of Engineering".data, 4)]
    modelList := []
    remote := ⟨[], 1⟩
    userList := []
    dirRows := [⟨"carol".data, "E9".data, "Carol".data, "Lee".data, "carol@nyu.edu".data⟩]
    bigfixRows := []
    adminRows := []
    nextUid := 100
    nextEntityId := 500 }

/-- Witness fixture: a feed row for serial `s9` last seen at time 3. -/
def exRowS9 : BigfixRow :=
  ⟨"m1".data, "Dell".data, "Desktop".data, "s9".data, "pc9".data,
    TimeStr.valid 3, [], [], [], []⟩

/-- Counterexample fixture: the remote holds asset `s9` with the notes
marker at time 5 but in an unrelated status 99, so the first pass must
issue a direct status update, which destroys the marker. -/
def exRemoteBad : Remote := ⟨[⟨1, "s9".data, "pc9".data, some 5, 99, none⟩], 2⟩

/-- Witness fixture: the remote holds asset `s9` already in the check-in
status 1, assigned to user 44. -/
def exRemoteGood : Remote := ⟨[⟨1, "s9".data, "pc9".data, some 5, 1, some 44⟩], 2⟩

/-- Witness fixture: a feed row whose `Computer Name` is whitespace-only. -/
def exRowNoName : BigfixRow :=
  ⟨"m1".data, "Dell".data, "Desktop".data, "s10".data, "   ".data,
    TimeStr.valid 3, [], [], [], []⟩

/-- Witness fixture: directory rows for `alice` (E1) and `bob` (E2). -/
def exDir : List DirRow :=
  [⟨"alice".data, "E1".data, "Alice".data, "Smith".data, "alice@nyu.edu".data⟩,
   ⟨"bob".data, "E2".data, "Bob".data, "Jones".data, "bob@nyu.edu".data⟩]

/-- Witness fixture: Snipe-IT user cache holding both directory users. -/
def exUsers : UserDict :=
  [("E1".data, ⟨11, some "alice".data, "alice@nyu.edu".data, "alice".data,
      "smith".data, some "E1".data⟩),
   ("alice".data, ⟨11, some "alice".data, "alice@nyu.edu".data, "alice".data,
      "smith".data, some "E1".data⟩),
   ("E2".data, ⟨12, some "bob".data, "bob@nyu.edu".data, "bob".data,
      "jones".data, some "E2".data⟩),
   ("bob".data, ⟨12, some "bob".data, "bob@nyu.edu".data, "bob".data,
      "jones".data, some "E2".data⟩)]

/-- Witness fixture: a device whose fallback columns mention `alice` and
`bob` twice each — a qualifying tie. -/
def exRowTie : BigfixRow :=
  ⟨"m1".data, "Dell".data, "Desktop".data, "s2".data, "pc3".data,
    TimeStr.valid 3, [], "alice,bob".data, "alice,bob".data, []⟩

/-- Witness fixture: a device whose fallback columns mention `alice` twice
and `bob` once — a unique qualifying plurality winner. -/
def exRowWin : BigfixRow :=
  ⟨"m1".data, "Dell".data, "Desktop".data, "s8".data, "pc8".data,
    TimeStr.valid 3, [], "alice,bob".data, "alice".data, []⟩

/-- Witness fixture: a device whose primary hint is `alice` while the
auxiliary columns carry a conflicting, higher-count candidate `bob`. -/
def exRowConflict : BigfixRow :=
  ⟨"m1".data, "Dell".data, "Desktop".data, "s3".data, "pc4".data,
    TimeStr.valid 3, "alice".data, "bob,bob".data, "bob,bob".data, []⟩

/-- Witness fixture: the cached Snipe-IT user record of `alice`. -/
def exAlice : UserInfo :=
  ⟨11, some "alice".data, "alice@nyu.edu".data, "alice".data,
    "smith".data, some "E1".data⟩

/-! # Theorems -/

theorem dget_dinsert_self {κ α : Type} [DecidableEq κ] (k : κ) (v : α)
    (m : List (κ × α)) : dget k (dinsert k v m) = some v := by
  unfold dinsert
  by_cases h : m.any (fun p => decide (p.1 = k)) = true
  · rw [if_pos h]
    induction m with
    | nil => simp at h
    | cons p rest ih =>
      by_cases hp : p.1 = k
      · simp [dget, List.map_cons, List.find?_cons_of_pos, hp]
      · have hrest : rest.any (fun p => decide (p.1 = k)) = true := by
          simp only [List.any_cons, Bool.or_eq_true, decide_eq_true_eq] at h
          exact h.resolve_left hp
        have := ih hrest
        simp only [dget, List.map_cons, if_neg hp] at this ⊢
        rw [List.find?_cons_of_neg _ (by simpa using hp)]
        exact this
  · rw [if_neg h]
    induction m with
    | nil => simp [dget]
    | cons p rest ih =>
      simp only [List.any_cons, Bool.or_eq_true, decide_eq_true_eq, not_or] at h
      simp only [dget, List.cons_append]
      rw [List.find?_cons_of_neg _ (by simpa using h.1)]
      exact ih (by simpa using h.2)

theorem dget_map_overwrite {κ α : Type} [DecidableEq κ] (k k' : κ) (v : α)
    (m : List (κ × α)) (hne : k' ≠ k) :
    dget k' (m.map (fun p => if p.1 = k then (k, v) else p)) = dget k' m := by
  induction m with
  | nil => rfl
  | cons p rest ih =>
    by_cases hp : p.1 = k
    · simp only [dget, List.map_cons, if_pos hp]
      rw [List.find?_cons_of_neg _ (by simp; exact fun hh => hne hh.symm),
        List.find?_cons_of_neg _ (by simp [hp]; exact fun hh => hne hh.symm)]
      exact ih
    · by_cases hpk : p.1 = k'
      · simp only [dget, List.map_cons, if_neg hp]
        rw [List.find?_cons_of_pos _ (by simpa using hpk),
          List.find?_cons_of_pos _ (by simpa using hpk)]
      · simp only [dget, List.map_cons, if_neg hp]
        rw [List.find?_cons_of_neg _ (by simpa using hpk),
          List.find?_cons_of_neg _ (by simpa using hpk)]
        exact ih

theorem dget_append_single {κ α : Type} [DecidableEq κ] (k k' : κ) (v : α)
    (m : List (κ × α)) (hne : k' ≠ k) :
    dget k' (m ++ [(k, v)]) = dget k' m := by
  induction m with
  | nil =>
    simp only [dget, List.nil_append]
    rw [List.find?_cons_of_neg _ (by simp; exact fun hh => hne hh.symm)]
  | cons p rest ih =>
    by_cases hpk : p.1 = k'
    · simp only [dget, List.cons_append]
      rw [List.find?_cons_of_pos _ (by simpa using hpk),
        List.find?_cons_of_pos _ (by simpa using hpk)]
    · simp only [dget, List.cons_append]
      rw [List.find?_cons_of_neg _ (by simpa using hpk),
        List.find?_cons_of_neg _ (by simpa using hpk)]
      exact ih

theorem dget_dinsert_ne {κ α : Type} [DecidableEq κ] (k k' : κ) (v : α)
    (m : List (κ × α)) (hne : k' ≠ k) : dget k' (dinsert k v m) = dget k' m := by
  unfold dinsert
  by_cases h : m.any (fun p => decide (p.1 = k)) = true
  · rw [if_pos h]; exact dget_map_overwrite k k' v m hne
  · rw [if_neg h]; exact dget_append_single k k' v m hne


theorem dget_bigfixStep (m : List (PyStr × (BigfixRow × Nat))) (r : BigfixRow)
    (s : PyStr) :
    dget s (bigfixStep m r) =
      if rowAccepted r ∧ serialUpper r = s then
        (match dget s m with
         | none => some (r, rowTime r)
         | some (b, t) => if rowTime r > t then some (r, rowTime r) else some (b, t))
      else dget s m := by
  unfold bigfixStep
  by_cases hacc : rowAccepted r = true
  · rw [if_pos hacc]
    by_cases hs : serialUpper r = s
    · subst hs
      rw [if_pos ⟨hacc, rfl⟩]
      cases hm : dget (serialUpper r) m with
      | none => simp [dget_dinsert_self]
      | some p =>
        cases p with
        | mk b t =>
          by_cases ht : rowTime r > t
          · simp [ht, dget_dinsert_self]
          · simp [ht, hm]
    · rw [if_neg (fun hh => hs hh.2)]
      cases hm : dget (serialUpper r) m with
      | none => exact dget_dinsert_ne _ _ _ _ (fun hh => hs hh.symm)
      | some p =>
        cases p with
        | mk b t =>
          by_cases ht : rowTime r > t
          · simp only [ht, if_pos]
            exact dget_dinsert_ne _ _ _ _ (fun hh => hs hh.symm)
          · simp [ht]
  · rw [if_neg hacc, if_neg (fun hh => hacc hh.1)]

theorem dget_foldl_bigfixStep (rows : List BigfixRow) :
    ∀ (m : List (PyStr × (BigfixRow × Nat))) (s : PyStr),
      dget s (rows.foldl bigfixStep m) =
        chooseGo (dget s m)
          (rows.filter (fun r => rowAccepted r && decide (serialUpper r = s))) := by
  induction rows with
  | nil => intro m s; rfl
  | cons r rows ih =>
    intro m s
    rw [List.foldl_cons, ih]
    have hfc : (r :: rows).filter (fun r => rowAccepted r && decide (serialUpper r = s)) =
        if (rowAccepted r && decide (serialUpper r = s)) = true then
          r :: rows.filter (fun r => rowAccepted r && decide (serialUpper r = s))
        else rows.filter (fun r => rowAccepted r && decide (serialUpper r = s)) := by
      by_cases hc : (rowAccepted r && decide (serialUpper r = s)) = true
      · simp [List.filter, hc]
      · simp [List.filter, Bool.eq_false_iff.mpr hc]
    rw [hfc]
    by_cases hc : (rowAccepted r && decide (serialUpper r = s)) = true
    · have hacc : rowAccepted r = true := by
        simpa using (Bool.and_eq_true _ _ |>.mp hc).1
      have hs : serialUpper r = s := by
        simpa using (Bool.and_eq_true _ _ |>.mp hc).2
      rw [if_pos hc, dget_bigfixStep, if_pos ⟨hacc, hs⟩]
      cases hm : dget s m with
      | none => simp [chooseGo]
      | some p => cases p with | mk b t => by_cases ht : rowTime r > t <;> simp [chooseGo, ht]
    · rw [if_neg hc, dget_bigfixStep]
      rw [if_neg (by
        intro hh
        exact hc (by simp [hh.1, hh.2]))]

theorem chooseGo_some_spec (l : List BigfixRow) :
    ∀ b : BigfixRow, ∃ c : BigfixRow,
      chooseGo (some (b, rowTime b)) l = some (c, rowTime c) ∧ FirstMax (b :: l) c := by
  induction l with
  | nil =>
    intro b
    exact ⟨b, rfl, [], [], rfl, by simp, by simp⟩
  | cons r rs ih =>
    intro b
    by_cases hgt : rowTime r > rowTime b
    · obtain ⟨c, hc, pre, post, hdec, hpre, hpost⟩ := ih r
      have hrc : rowTime r ≤ rowTime c := by
        rcases pre with _ | ⟨q, pre'⟩
        · rw [List.nil_append] at hdec
          injection hdec with h1 _
          rw [h1]
        · rw [List.cons_append] at hdec
          injection hdec with h1 _
          exact le_of_lt (h1 ▸ hpre q (List.mem_cons_self _ _))
      refine ⟨c, ?_, b :: pre, post, by rw [List.cons_append, ← hdec], ?_, hpost⟩
      · show chooseGo (if rowTime r > rowTime b then _ else _) rs = _
        rw [if_pos hgt]; exact hc
      · intro x hx
        rcases List.mem_cons.mp hx with hx | hx
        · subst hx
          exact lt_of_lt_of_le hgt hrc
        · exact hpre x hx
    · obtain ⟨c, hc, pre, post, hdec, hpre, hpost⟩ := ih b
      have hle : rowTime r ≤ rowTime b := le_of_not_lt hgt
      rcases pre with _ | ⟨q, pre'⟩
      · rw [List.nil_append] at hdec
        injection hdec with h1 h2
        refine ⟨c, ?_, [], r :: post, ?_, by simp, ?_⟩
        · show chooseGo (if rowTime r > rowTime b then _ else _) rs = _
          rw [if_neg hgt]; exact hc
        · rw [List.nil_append, h2, ← h1]
        · intro x hx
          rcases List.mem_cons.mp hx with hx | hx
          · subst hx
            rw [← h1]; exact hle
          · exact hpost x hx
      · rw [List.cons_append] at hdec
        injection hdec with h1 h2
        have hbc : rowTime b < rowTime c := h1 ▸ hpre q (List.mem_cons_self _ _)
        refine ⟨c, ?_, b :: r :: pre', post, ?_, ?_, hpost⟩
        · show chooseGo (if rowTime r > rowTime b then _ else _) rs = _
          rw [if_neg hgt]; exact hc
        · rw [h2]; rfl
        · intro x hx
          rcases List.mem_cons.mp hx with hx | hx
          · subst hx; exact hbc
          · rcases List.mem_cons.mp hx with hx | hx
            · subst hx; exact lt_of_le_of_lt hle hbc
            · exact hpre x (List.mem_cons_of_mem _ hx)

theorem updLinesLoop_eq (nl : PyStr) (ls : List PyStr) :
    updLinesLoop nl ls =
      (ls.map (fun l => if pyContainsSub bigfixMarker l then nl else l),
       ls.any (fun l => pyContainsSub bigfixMarker l)) := by
  induction ls with
  | nil => rfl
  | cons l ls ih =>
    simp only [updLinesLoop, ih, List.map_cons, List.any_cons]
    by_cases h : pyContainsSub bigfixMarker l = true
    · simp [h]
    · simp [h, Bool.false_or]

/-- C5 (counterexample): on the notes `" x"` (a single line with a leading
space) the updated notes do not keep that line verbatim: the final
`strip()` removes the leading space, so the result's lines are not
`[" x", marker-line]` as the claim requires. -/
theorem update_notes_claim_counterexample :
    ¬ (pySplitChar '\n'
        (update_bigfix_last_report_in_notes " x".data "2025-01-01 00:00:00".data) =
      [" x".data, "BigFix Last Report: 2025-01-01 00:00:00".data]) := by
  decide

/-- C5 (amended): `update_bigfix_last_report_in_notes` returns the
line-by-line reassembly demanded by the claim — every line containing the
`BigFix Last Report:` marker replaced by the fresh marker line, every other
line kept verbatim in order, the marker line appended when no line carried
the marker — except that the whole result is additionally stripped of
leading and trailing whitespace. -/
theorem update_notes_preserves_lines_mod_strip (notes timeStr : PyStr) :
    update_bigfix_last_report_in_notes notes timeStr =
      pyStrip (List.intercalate ['\n']
        ((pySplitChar '\n' notes).map (replaceMarkerLine timeStr) ++
          (if (pySplitChar '\n' notes).any (fun l => pyContainsSub bigfixMarker l)
           then [] else ["BigFix Last Report: ".data ++ timeStr]))) := by
  show pyStrip _ = _
  rw [updLinesLoop_eq]
  by_cases h : (pySplitChar '\n' notes).any (fun l => pyContainsSub bigfixMarker l) = true
  · rw [if_pos h, if_pos h, List.append_nil]; rfl
  · rw [if_neg h, if_neg h]; rfl

/-- C4: for any feed and serial key, after row filtering (missing serial,
skip-listed serial, missing last-report time), the retained entry of
`bigfix_data` for that key is the first-encountered row attaining the
maximum parsed timestamp among rows sharing that key (strictly later rows
replace, ties keep the first), and a row whose timestamp fails to parse is
ranked with the minimum representable timestamp while still participating
in deduplication. -/
theorem bigfix_dedup_first_max (rows : List BigfixRow) (s : PyStr) :
    (∀ raw, parse_last_report_time (TimeStr.unparseable raw) = datetimeMin) ∧
    (dget s (buildBigfixData rows) = none →
      rows.filter (fun r => rowAccepted r && decide (serialUpper r = s)) = []) ∧
    (∀ b t, dget s (buildBigfixData rows) = some (b, t) →
      t = rowTime b ∧
      FirstMax (rows.filter (fun r => rowAccepted r && decide (serialUpper r = s))) b) := by
  have key : dget s (buildBigfixData rows) =
      chooseGo none (rows.filter (fun r => rowAccepted r && decide (serialUpper r = s))) := by
    rw [buildBigfixData, dget_foldl_bigfixStep]
    rfl
  refine ⟨fun raw => rfl, ?_, ?_⟩
  · intro h
    cases hfl : rows.filter (fun r => rowAccepted r && decide (serialUpper r = s)) with
    | nil => rfl
    | cons r rs =>
      exfalso
      obtain ⟨c, hc, _⟩ := chooseGo_some_spec rs r
      have hcn : chooseGo none (r :: rs) = some (c, rowTime c) := hc
      rw [h, hfl, hcn] at key
      exact Option.noConfusion key
  · intro b t h
    cases hfl : rows.filter (fun r => rowAccepted r && decide (serialUpper r = s)) with
    | nil =>
      rw [h, hfl] at key
      exact absurd key (by simp [chooseGo])
    | cons r rs =>
      obtain ⟨c, hc, hfm⟩ := chooseGo_some_spec rs r
      have hcn : chooseGo none (r :: rs) = some (c, rowTime c) := hc
      rw [h, hfl, hcn] at key
      have hb : b = c := congrArg (fun o => (Option.getD o (b, t)).1) key
      have ht : t = rowTime c := congrArg (fun o => (Option.getD o (b, t)).2) key
      constructor
      · rw [hb]; exact ht
      · rw [hb]; exact hfm

/-- C4 (witness): two rows share serial `S1` (case-insensitively) with equal
parsed times; the dedup keeps the first row, which is the first maximum. -/
theorem bigfix_dedup_first_max_witness :
    5 = rowTime exRowA ∧
    FirstMax ([exRowA, exRowB].filter
      (fun r => rowAccepted r && decide (serialUpper r = "S1".data))) exRowA :=
  (bigfix_dedup_first_max [exRowA, exRowB] "S1".data).2.2 exRowA 5 (by decide)

theorem fbnGo_some_eq (dir : List DirRow) (users : UserDict) :
    ∀ (l : List (PyStr × Nat)) (m : Nat) (acc : List PyStr),
      (∀ p ∈ l, p.2 ≤ m) → List.Pairwise (fun a b => b.2 ≤ a.2) l →
      (fbnGo dir users l ⟨some m, acc⟩).qualAtMax =
        acc ++ (l.filter (fun p => qualifies dir users p.1 && decide (p.2 = m))).map (·.1) := by
  intro l
  induction l with
  | nil => intro m acc _ _; simp [fbnGo]
  | cons p rest ih =>
    intro m acc hle hpw
    obtain ⟨netid, count⟩ := p
    have hcm : count ≤ m := hle _ (List.mem_cons_self _ _)
    rw [List.pairwise_cons] at hpw
    obtain ⟨hhd, hpwrest⟩ := hpw
    by_cases hlt : count < m
    · have hbr : fbnBreak (some m) count = true := by simp [fbnBreak, hlt]
      have hst : fbnGo dir users ((netid, count) :: rest) ⟨some m, acc⟩ = ⟨some m, acc⟩ := by
        simp [fbnGo, hbr]
      rw [hst]
      have hfe : ((netid, count) :: rest).filter
          (fun p => qualifies dir users p.1 && decide (p.2 = m)) = [] := by
        rw [List.filter_eq_nil_iff]
        intro a ha
        rcases List.mem_cons.mp ha with h | h
        · subst h
          simp only [Bool.and_eq_true, decide_eq_true_eq, not_and]
          intro _
          omega
        · have h2 : a.2 ≤ count := hhd a h
          simp only [Bool.and_eq_true, decide_eq_true_eq, not_and]
          intro _
          omega
      rw [hfe]
      simp
    · have heq : count = m := le_antisymm hcm (not_lt.mp hlt)
      have hbr : fbnBreak (some m) count = false := by simp [fbnBreak, hlt]
      have hbr' : ¬fbnBreak (some m) count = true := by rw [hbr]; exact Bool.false_ne_true
      have hunf : fbnGo dir users ((netid, count) :: rest) ⟨some m, acc⟩ =
          if fbnBreak (some m) count then ⟨some m, acc⟩
          else fbnGo dir users rest
            (if qualifies dir users netid then
              (if count > m then ⟨some count, [netid]⟩
               else if count = m then ⟨some m, acc ++ [netid]⟩ else ⟨some m, acc⟩)
            else ⟨some m, acc⟩) := rfl
      by_cases hq : qualifies dir users netid = true
      · have hstep : fbnGo dir users ((netid, count) :: rest) ⟨some m, acc⟩ =
            fbnGo dir users rest ⟨some m, acc ++ [netid]⟩ := by
          have hngt : ¬count > m := by omega
          rw [hunf, if_neg hbr', if_pos hq, if_neg hngt, if_pos heq]
        rw [hstep, ih m (acc ++ [netid]) (fun p hp => hle p (List.mem_cons_of_mem _ hp)) hpwrest]
        have hfc : ((netid, count) :: rest).filter
            (fun p => qualifies dir users p.1 && decide (p.2 = m)) =
            (netid, count) :: rest.filter (fun p => qualifies dir users p.1 && decide (p.2 = m)) := by
          simp [List.filter, hq, heq]
        rw [hfc, List.map_cons, List.append_assoc]
        rfl
      · have hstep : fbnGo dir users ((netid, count) :: rest) ⟨some m, acc⟩ =
            fbnGo dir users rest ⟨some m, acc⟩ := by
          rw [hunf, if_neg hbr', if_neg hq]
        rw [hstep, ih m acc (fun p hp => hle p (List.mem_cons_of_mem _ hp)) hpwrest]
        have hfc : ((netid, count) :: rest).filter
            (fun p => qualifies dir users p.1 && decide (p.2 = m)) =
            rest.filter (fun p => qualifies dir users p.1 && decide (p.2 = m)) := by
          simp [List.filter, hq]
        rw [hfc]

theorem fbnGo_none_eq (dir : List DirRow) (users : UserDict) :
    ∀ l : List (PyStr × Nat),
      List.Pairwise (fun a b => b.2 ≤ a.2) l →
      (l.filter (fun p => qualifies dir users p.1) = [] →
          (fbnGo dir users l ⟨none, []⟩).qualAtMax = []) ∧
      (∀ q tl, l.filter (fun p => qualifies dir users p.1) = q :: tl →
          (fbnGo dir users l ⟨none, []⟩).qualAtMax =
            (l.filter (fun p => qualifies dir users p.1 && decide (p.2 = q.2))).map (·.1)) := by
  intro l
  induction l with
  | nil => intro _; exact ⟨fun _ => rfl, fun q tl h => List.noConfusion h⟩
  | cons p rest ih =>
    intro hpw
    obtain ⟨netid, count⟩ := p
    rw [List.pairwise_cons] at hpw
    obtain ⟨hhd, hpwrest⟩ := hpw
    have hunf : fbnGo dir users ((netid, count) :: rest) ⟨none, []⟩ =
        if fbnBreak none count then ⟨none, []⟩
        else fbnGo dir users rest
          (if qualifies dir users netid then ⟨some count, [netid]⟩ else ⟨none, []⟩) := rfl
    have hbr' : ¬fbnBreak none count = true := by
      simp [fbnBreak]
    by_cases hq : qualifies dir users netid = true
    · have hstep : fbnGo dir users ((netid, count) :: rest) ⟨none, []⟩ =
          fbnGo dir users rest ⟨some count, [netid]⟩ := by
        rw [hunf, if_neg hbr', if_pos hq]
      have hfq : ((netid, count) :: rest).filter (fun p => qualifies dir users p.1) =
          (netid, count) :: rest.filter (fun p => qualifies dir users p.1) := by
        simp [List.filter, hq]
      constructor
      · intro hnil
        rw [hfq] at hnil
        exact List.noConfusion hnil
      · intro q tl h
        rw [hfq] at h
        have hq1 : q = (netid, count) := (List.cons.injEq _ _ _ _ |>.mp h).1.symm
        have hq2 : q.2 = count := by rw [hq1]
        rw [hstep, fbnGo_some_eq dir users rest count [netid] (fun p hp => hhd p hp) hpwrest]
        have hfc : ((netid, count) :: rest).filter
            (fun p => qualifies dir users p.1 && decide (p.2 = q.2)) =
            (netid, count) :: rest.filter
              (fun p => qualifies dir users p.1 && decide (p.2 = count)) := by
          simp [List.filter, hq, hq2]
        rw [hfc, List.map_cons]
        rfl
    · have hstep : fbnGo dir users ((netid, count) :: rest) ⟨none, []⟩ =
          fbnGo dir users rest ⟨none, []⟩ := by
        rw [hunf, if_neg hbr', if_neg hq]
      have hfq : ((netid, count) :: rest).filter (fun p => qualifies dir users p.1) =
          rest.filter (fun p => qualifies dir users p.1) := by
        simp [List.filter, hq]
      constructor
      · intro hnil
        rw [hfq] at hnil
        rw [hstep]
        exact (ih hpwrest).1 hnil
      · intro q tl h
        rw [hfq] at h
        rw [hstep, (ih hpwrest).2 q tl h]
        have hfc : ((netid, count) :: rest).filter
            (fun p => qualifies dir users p.1 && decide (p.2 = q.2)) =
            rest.filter (fun p => qualifies dir users p.1 && decide (p.2 = q.2)) := by
          simp [List.filter, hq]
        rw [hfc]

theorem dinsert_keys_nodup {κ α : Type} [DecidableEq κ] (k : κ) (v : α)
    (m : List (κ × α)) (h : dictKeysNodup m) : dictKeysNodup (dinsert k v m) := by
  unfold dinsert
  by_cases hany : m.any (fun p => decide (p.1 = k)) = true
  · rw [if_pos hany]
    unfold dictKeysNodup
    have hkeys : (m.map (fun p => if p.1 = k then (k, v) else p)).map (·.1) =
        m.map (·.1) := by
      rw [List.map_map]
      apply List.map_congr_left
      intro p _
      by_cases hp : p.1 = k
      · simp [hp]
      · simp [hp]
    rw [hkeys]
    exact h
  · rw [if_neg hany]
    unfold dictKeysNodup
    rw [List.map_append]
    rw [List.nodup_append]
    refine ⟨h, List.nodup_singleton _, ?_⟩
    intro x hx hxk
    rcases List.mem_map.mp hx with ⟨p, hp, hpx⟩
    have hxk' : x = k := by simpa using hxk
    rw [List.any_eq_true] at hany
    exact hany ⟨p, hp, by rw [hpx, hxk']; exact decide_eq_true rfl⟩

theorem foldl_dinsert_keys_nodup {κ α : Type} [DecidableEq κ]
    (l : List (κ × α)) (f : κ × α → κ) :
    ∀ m : List (κ × α), dictKeysNodup m →
      dictKeysNodup (l.foldl (fun m p => dinsert (f p) p.2 m) m) := by
  induction l with
  | nil => intro m h; exact h
  | cons p rest ih =>
    intro m h
    exact ih _ (dinsert_keys_nodup (f p) p.2 m h)

theorem dget_none_keys {κ α : Type} [DecidableEq κ] (k : κ) (m : List (κ × α))
    (h : dget k m = none) : ∀ p ∈ m, p.1 ≠ k := by
  intro p hp hpk
  unfold dget at h
  have hf := Option.map_eq_none'.mp h
  exact List.find?_eq_none.mp hf p hp (decide_eq_true hpk)

theorem cbump_keys_nodup (n : PyStr) (m : List (PyStr × Nat))
    (h : dictKeysNodup m) : dictKeysNodup (cbump n m) := by
  unfold cbump
  cases hg : dget n m with
  | some c => exact dinsert_keys_nodup n (c + 1) m h
  | none =>
    unfold dictKeysNodup
    rw [List.map_append, List.nodup_append]
    refine ⟨h, List.nodup_singleton _, ?_⟩
    intro x hx hxn
    rcases List.mem_map.mp hx with ⟨p, hp, hpx⟩
    have hxn' : x = n := by simpa using hxn
    exact dget_none_keys n m hg p hp (by rw [hpx, hxn'])

theorem tallyParts_keys_nodup (parts : List PyStr) :
    ∀ m : List (PyStr × Nat), dictKeysNodup m → dictKeysNodup (tallyParts parts m) := by
  induction parts with
  | nil => intro m h; exact h
  | cons part rest ih =>
    intro m h
    have hstep : tallyParts (part :: rest) m =
        tallyParts rest (match extract_netid part with
          | some n => cbump n m
          | none => m) := by
      unfold tallyParts
      rw [List.foldl_cons]
    rw [hstep]
    cases hx : extract_netid part with
    | some n2 => exact ih _ (cbump_keys_nodup n2 m h)
    | none => exact ih _ h

theorem tallyColumn_keys_nodup (col : PyStr) (m : List (PyStr × Nat))
    (h : dictKeysNodup m) : dictKeysNodup (tallyColumn col m) := by
  unfold tallyColumn
  by_cases hc : col.isEmpty = true
  · rw [if_pos hc]
    exact h
  · rw [if_neg hc]
    exact tallyParts_keys_nodup _ m h

theorem netidCandidates_keys_nodup (row : BigfixRow) :
    dictKeysNodup (netidCandidates row) := by
  unfold netidCandidates
  exact tallyColumn_keys_nodup _ _ (tallyColumn_keys_nodup _ _
    (tallyColumn_keys_nodup _ _ List.nodup_nil))

theorem dictKeysNodup_unique {κ α : Type} [DecidableEq κ] (k : κ) (a b : α) :
    ∀ m : List (κ × α), dictKeysNodup m → (k, a) ∈ m → (k, b) ∈ m → a = b := by
  intro m
  induction m with
  | nil => intro _ ha _; exact absurd ha (List.not_mem_nil _)
  | cons p rest ih =>
    intro h ha hb
    have h' : (p.1 :: rest.map (·.1)).Nodup := h
    have hhead : p.1 ∉ rest.map (·.1) := (List.nodup_cons.mp h').1
    have hrest : dictKeysNodup rest := (List.nodup_cons.mp h').2
    rcases List.mem_cons.mp ha with ha1 | ha1 <;> rcases List.mem_cons.mp hb with hb1 | hb1
    · have hab := ha1.trans hb1.symm
      injection hab with h1 h2
    · have hk : k ∈ rest.map (·.1) := List.mem_map.mpr ⟨(k, b), hb1, rfl⟩
      rw [← ha1] at hhead
      exact absurd hk hhead
    · have hk : k ∈ rest.map (·.1) := List.mem_map.mpr ⟨(k, a), ha1, rfl⟩
      rw [← hb1] at hhead
      exact absurd hk hhead
    · exact ih hrest ha1 hb1

theorem nodup_all_eq_singleton {α : Type} (l : List α) (a : α)
    (hnd : l.Nodup) (hmem : a ∈ l) (hall : ∀ x ∈ l, x = a) : l = [a] := by
  cases l with
  | nil => exact absurd hmem (List.not_mem_nil _)
  | cons x rest =>
    have hx : x = a := hall x (List.mem_cons_self _ _)
    have hrest : rest = [] := by
      cases rest with
      | nil => rfl
      | cons y ys =>
        have hy : y = a := hall y (List.mem_cons_of_mem _ (List.mem_cons_self _ _))
        have hne := (List.nodup_cons.mp hnd).1
        have hxy : x = y := hx.trans hy.symm
        exact absurd (by rw [hxy]; exact List.mem_cons_self _ _) hne
    rw [hx, hrest]

/-- C2: `find_best_netid` returns a NetID only when it qualifies (present in
the directory data and provisioned in the Snipe-IT user cache) and its
occurrence count strictly exceeds the count of every other qualifying
candidate; whenever two distinct qualifying candidates share the maximal
qualifying count, it returns no assignment (`none`); and conversely,
whenever some tallied candidate qualifies and its count strictly exceeds
the count of every other qualifying candidate, that candidate is the one
returned. -/
theorem find_best_netid_spec (row : BigfixRow) (dir : List DirRow) (users : UserDict) :
    (∀ n, find_best_netid row dir users = some n →
      qualifies dir users n = true ∧
      ∃ c, (n, c) ∈ netidCandidates row ∧
        ∀ p ∈ netidCandidates row, qualifies dir users p.1 = true → p.1 ≠ n → p.2 < c) ∧
    (∀ n₁ n₂ c, n₁ ≠ n₂ →
      (n₁, c) ∈ netidCandidates row → (n₂, c) ∈ netidCandidates row →
      qualifies dir users n₁ = true → qualifies dir users n₂ = true →
      (∀ p ∈ netidCandidates row, qualifies dir users p.1 = true → p.2 ≤ c) →
      find_best_netid row dir users = none) ∧
    (∀ n c, (n, c) ∈ netidCandidates row → qualifies dir users n = true →
      (∀ p ∈ netidCandidates row, qualifies dir users p.1 = true → p.1 ≠ n → p.2 < c) →
      find_best_netid row dir users = some n) := by
  have hperm : List.Perm (List.insertionSort candKeyLE (netidCandidates row))
      (netidCandidates row) := List.perm_insertionSort _ _
  have hsorted : List.Sorted candKeyLE
      (List.insertionSort candKeyLE (netidCandidates row)) :=
    List.sorted_insertionSort _ _
  have hpw : List.Pairwise (fun a b : PyStr × Nat => b.2 ≤ a.2)
      (List.insertionSort candKeyLE (netidCandidates row)) :=
    hsorted.imp (fun hab => by
      rcases hab with h | ⟨h, _⟩
      · omega
      · omega)
  have hunf : find_best_netid row dir users =
      if (netidCandidates row).isEmpty then none
      else
        match (fbnGo dir users (List.insertionSort candKeyLE (netidCandidates row))
            ⟨none, []⟩).qualAtMax with
        | [q] => some q
        | _ => none := rfl
  refine ⟨?_, ?_, ?_⟩
  · intro n hn
    rw [hunf] at hn
    by_cases hemp : (netidCandidates row).isEmpty = true
    · rw [if_pos hemp] at hn
      exact Option.noConfusion hn
    rw [if_neg hemp] at hn
    cases hflt : (List.insertionSort candKeyLE (netidCandidates row)).filter
        (fun p => qualifies dir users p.1) with
    | nil =>
      rw [(fbnGo_none_eq dir users _ hpw).1 hflt] at hn
      exact Option.noConfusion hn
    | cons q tl =>
      rw [(fbnGo_none_eq dir users _ hpw).2 q tl hflt] at hn
      cases hF : (List.insertionSort candKeyLE (netidCandidates row)).filter
          (fun p => qualifies dir users p.1 && decide (p.2 = q.2)) with
      | nil =>
        rw [hF, List.map_nil] at hn
        exact Option.noConfusion hn
      | cons p0 tl0 =>
        cases htl0 : tl0 with
        | cons p1 tl1 =>
          rw [hF, htl0, List.map_cons, List.map_cons] at hn
          exact Option.noConfusion hn
        | nil =>
          rw [hF, htl0, List.map_cons, List.map_nil] at hn
          have hp0n : p0.1 = n := Option.some.inj hn
          have hp0mem : p0 ∈ (List.insertionSort candKeyLE (netidCandidates row)).filter
              (fun p => qualifies dir users p.1 && decide (p.2 = q.2)) := by
            rw [hF, htl0]
            exact List.mem_singleton.mpr rfl
          obtain ⟨hp0S, hp0pred⟩ := List.mem_filter.mp hp0mem
          rw [Bool.and_eq_true, decide_eq_true_eq] at hp0pred
          obtain ⟨hp0q, hp0c⟩ := hp0pred
          refine ⟨hp0n ▸ hp0q, p0.2, ?_, ?_⟩
          · have hpe : (n, p0.2) = p0 := by rw [← hp0n]
            rw [hpe]
            exact hperm.mem_iff.mp hp0S
          · intro p hp hpq hpne
            have hpS : p ∈ List.insertionSort candKeyLE (netidCandidates row) :=
              hperm.mem_iff.mpr hp
            have hpf : p ∈ q :: tl := by
              rw [← hflt]
              exact List.mem_filter.mpr ⟨hpS, hpq⟩
            have hpf2 : p.2 ≤ q.2 := by
              rcases List.mem_cons.mp hpf with h | h
              · rw [h]
              · have hpfpw : List.Pairwise (fun a b : PyStr × Nat => b.2 ≤ a.2) (q :: tl) := by
                  rw [← hflt]
                  exact hpw.sublist (List.filter_sublist _)
                exact (List.pairwise_cons.mp hpfpw).1 p h
            have hpne2 : p.2 ≠ q.2 := by
              intro heq2
              have hpmem : p ∈ (List.insertionSort candKeyLE (netidCandidates row)).filter
                  (fun p => qualifies dir users p.1 && decide (p.2 = q.2)) :=
                List.mem_filter.mpr ⟨hpS, by
                  rw [Bool.and_eq_true, decide_eq_true_eq]
                  exact ⟨hpq, heq2⟩⟩
              rw [hF, htl0] at hpmem
              exact hpne (by rw [List.mem_singleton.mp hpmem, hp0n])
            rw [hp0c]
            omega
  · intro n₁ n₂ c hne h1 h2 hq1 hq2 hmax
    have hnn : netidCandidates row ≠ [] := List.ne_nil_of_mem h1
    have hef : (netidCandidates row).isEmpty = false := List.isEmpty_eq_false.mpr hnn
    have hemp : ¬(netidCandidates row).isEmpty = true := by
      rw [hef]
      exact Bool.false_ne_true
    rw [hunf, if_neg hemp]
    have h1S : (n₁, c) ∈ List.insertionSort candKeyLE (netidCandidates row) :=
      hperm.mem_iff.mpr h1
    have h2S : (n₂, c) ∈ List.insertionSort candKeyLE (netidCandidates row) :=
      hperm.mem_iff.mpr h2
    have h1f : (n₁, c) ∈ (List.insertionSort candKeyLE (netidCandidates row)).filter
        (fun p => qualifies dir users p.1) := List.mem_filter.mpr ⟨h1S, hq1⟩
    cases hflt : (List.insertionSort candKeyLE (netidCandidates row)).filter
        (fun p => qualifies dir users p.1) with
    | nil =>
      rw [hflt] at h1f
      exact absurd h1f (List.not_mem_nil _)
    | cons q tl =>
      rw [(fbnGo_none_eq dir users _ hpw).2 q tl hflt]
      have hqmem : q ∈ (List.insertionSort candKeyLE (netidCandidates row)).filter
          (fun p => qualifies dir users p.1) := by
        rw [hflt]
        exact List.mem_cons_self q tl
      obtain ⟨hqS, hqq⟩ := List.mem_filter.mp hqmem
      have hqc_le : q.2 ≤ c := hmax q (hperm.mem_iff.mp hqS) hqq
      have hc_le : c ≤ q.2 := by
        rw [hflt] at h1f
        rcases List.mem_cons.mp h1f with h | h
        · rw [← h]
        · have hpfpw : List.Pairwise (fun a b : PyStr × Nat => b.2 ≤ a.2) (q :: tl) := by
            rw [← hflt]
            exact hpw.sublist (List.filter_sublist _)
          exact (List.pairwise_cons.mp hpfpw).1 _ h
      have hqc : q.2 = c := le_antisymm hqc_le hc_le
      have h1F : (n₁, c) ∈ (List.insertionSort candKeyLE (netidCandidates row)).filter
          (fun p => qualifies dir users p.1 && decide (p.2 = q.2)) :=
        List.mem_filter.mpr ⟨h1S, by
          rw [Bool.and_eq_true, decide_eq_true_eq]
          exact ⟨hq1, by rw [hqc]⟩⟩
      have h2F : (n₂, c) ∈ (List.insertionSort candKeyLE (netidCandidates row)).filter
          (fun p => qualifies dir users p.1 && decide (p.2 = q.2)) :=
        List.mem_filter.mpr ⟨h2S, by
          rw [Bool.and_eq_true, decide_eq_true_eq]
          exact ⟨hq2, by rw [hqc]⟩⟩
      have hm1 : n₁ ∈ ((List.insertionSort candKeyLE (netidCandidates row)).filter
          (fun p => qualifies dir users p.1 && decide (p.2 = q.2))).map (·.1) :=
        List.mem_map.mpr ⟨(n₁, c), h1F, rfl⟩
      have hm2 : n₂ ∈ ((List.insertionSort candKeyLE (netidCandidates row)).filter
          (fun p => qualifies dir users p.1 && decide (p.2 = q.2))).map (·.1) :=
        List.mem_map.mpr ⟨(n₂, c), h2F, rfl⟩
      cases hF : ((List.insertionSort candKeyLE (netidCandidates row)).filter
          (fun p => qualifies dir users p.1 && decide (p.2 = q.2))).map (·.1) with
      | nil => rfl
      | cons x xs =>
        cases xs with
        | nil =>
          rw [hF] at hm1 hm2
          exact absurd ((List.mem_singleton.mp hm1).trans
            (List.mem_singleton.mp hm2).symm) hne
        | cons y ys => rfl
  · intro n c hmem hq hstrict
    have hkeys : dictKeysNodup (netidCandidates row) := netidCandidates_keys_nodup row
    have hnd : (netidCandidates row).Nodup := List.Nodup.of_map _ hkeys
    have hndS : (List.insertionSort candKeyLE (netidCandidates row)).Nodup :=
      hperm.nodup_iff.mpr hnd
    have hnn : netidCandidates row ≠ [] := List.ne_nil_of_mem hmem
    have hef : (netidCandidates row).isEmpty = false := List.isEmpty_eq_false.mpr hnn
    have hemp : ¬(netidCandidates row).isEmpty = true := by
      rw [hef]
      exact Bool.false_ne_true
    rw [hunf, if_neg hemp]
    have hmemS : (n, c) ∈ List.insertionSort candKeyLE (netidCandidates row) :=
      hperm.mem_iff.mpr hmem
    have hmemf : (n, c) ∈ (List.insertionSort candKeyLE (netidCandidates row)).filter
        (fun p => qualifies dir users p.1) := List.mem_filter.mpr ⟨hmemS, hq⟩
    cases hflt : (List.insertionSort candKeyLE (netidCandidates row)).filter
        (fun p => qualifies dir users p.1) with
    | nil =>
      rw [hflt] at hmemf
      exact absurd hmemf (List.not_mem_nil _)
    | cons q tl =>
      rw [(fbnGo_none_eq dir users _ hpw).2 q tl hflt]
      have hqmem : q ∈ (List.insertionSort candKeyLE (netidCandidates row)).filter
          (fun p => qualifies dir users p.1) := by
        rw [hflt]
        exact List.mem_cons_self q tl
      obtain ⟨hqS, hqq⟩ := List.mem_filter.mp hqmem
      have hqcand : q ∈ netidCandidates row := hperm.mem_iff.mp hqS
      have hc_le : c ≤ q.2 := by
        rw [hflt] at hmemf
        rcases List.mem_cons.mp hmemf with h | h
        · rw [← h]
        · have hpfpw : List.Pairwise (fun a b : PyStr × Nat => b.2 ≤ a.2) (q :: tl) := by
            rw [← hflt]
            exact hpw.sublist (List.filter_sublist _)
          exact (List.pairwise_cons.mp hpfpw).1 _ h
      have hq1 : q.1 = n := by
        by_contra hne
        have := hstrict q hqcand hqq hne
        omega
      have hq2 : q.2 = c := by
        have hq' : (n, q.2) ∈ netidCandidates row := by
          rw [← hq1]
          exact hqcand
        exact dictKeysNodup_unique n q.2 c (netidCandidates row) hkeys hq' hmem
      have hFeq : (List.insertionSort candKeyLE (netidCandidates row)).filter
          (fun p => qualifies dir users p.1 && decide (p.2 = q.2)) = [(n, c)] := by
        apply nodup_all_eq_singleton
        · exact hndS.sublist (List.filter_sublist _)
        · exact List.mem_filter.mpr ⟨hmemS, by
            rw [Bool.and_eq_true, decide_eq_true_eq]
            exact ⟨hq, by rw [hq2]⟩⟩
        · intro x hx
          obtain ⟨hxS, hxp⟩ := List.mem_filter.mp hx
          rw [Bool.and_eq_true, decide_eq_true_eq] at hxp
          obtain ⟨hxq, hxc⟩ := hxp
          have hxcand : x ∈ netidCandidates row := hperm.mem_iff.mp hxS
          have hx1 : x.1 = n := by
            by_contra hne
            have := hstrict x hxcand hxq hne
            omega
          have hx2 : x.2 = c := hxc.trans hq2
          have hxe : x = (x.1, x.2) := rfl
          rw [hxe, hx1, hx2]
      rw [hFeq, List.map_cons, List.map_nil]

/-- C2 (witness): `alice` and `bob` both occur twice in the fallback
columns of one device, both qualify, and nothing qualifying exceeds count
2, so the plurality fallback yields no assignment there; on a second device
`alice` occurs twice and `bob` once, both qualify, and the unique strict
plurality winner `alice` is returned. -/
theorem find_best_netid_spec_witness :
    find_best_netid exRowTie exDir exUsers = none ∧
    find_best_netid exRowWin exDir exUsers = some "alice".data :=
  ⟨(find_best_netid_spec exRowTie exDir exUsers).2.1 "alice".data "bob".data 2
    (by decide) (by decide) (by decide) (by decide) (by decide) (by decide),
   (find_best_netid_spec exRowWin exDir exUsers).2.2 "alice".data 2
    (by decide) (by decide) (by decide)⟩

/-- C7: evaluating `extract_netid` at the docstring's own example
`"( Work, tjb387@nyu.edu )"` yields the label fragment `"( work"`, not the
identity token `tjb387`: the text is split on commas before the parenthesis
form is recognised, so the parenthesized branch never sees the tuple and
the first comma part `"( work"` is returned as-is. -/
theorem extract_netid_paren_form_bug :
    extract_netid "( Work, tjb387@nyu.edu )".data = some "( work".data ∧
    extract_netid "( nyu, tjb387 )".data = some "( nyu".data := by
  constructor <;> decide

/-- C1: when the primary `User Name` hint validates (priority 1 succeeds),
the resolved user is the primary hint's user for every content of the
auxiliary hint columns and every admin-rule list: priorities 2–4 cannot
influence the outcome. -/
theorem priority1_short_circuits (row : BigfixRow) (dir : List DirRow)
    (users : UserDict) (admins : List AdminEntry) (u : UserInfo × PyStr)
    (f c w : PyStr)
    (h : priority1 row dir users = some u) :
    resolveUser { row with firefoxUsers := f, chromeUsers := c, nyuWifiUsers := w }
      dir users admins = some u := by
  have hp : priority1 { row with firefoxUsers := f, chromeUsers := c, nyuWifiUsers := w }
      dir users = priority1 row dir users := rfl
  unfold resolveUser
  rw [hp, h]

/-- C1 (witness): `alice` is the valid primary hint while the auxiliary
columns would elect the conflicting candidate `bob` with count 4; the chain
still resolves to `alice`. -/
theorem priority1_short_circuits_witness :
    find_best_netid exRowConflict exDir exUsers = some "bob".data ∧
    resolveUser exRowConflict exDir exUsers [] = some (exAlice, "alice".data) :=
  ⟨by decide,
    priority1_short_circuits exRowConflict exDir exUsers [] (exAlice, "alice".data)
      "bob,bob".data "bob,bob".data [] (by decide)⟩

/-- C8: any reference index built from the remote snapshot and extended by
in-run creations maps each key to at most one remote id, and looking up two
raw names that differ only in case or in surrounding whitespace (their
stripped lower-cased forms agree) yields the same entry. -/
theorem reference_index_unique_and_insensitive
    (snapshot created : List (PyStr × Nat)) (a b : PyStr)
    (h : pyLower (pyStrip a) = pyLower (pyStrip b)) :
    dictKeysNodup (appendCreated (buildIndex snapshot) created) ∧
    lookupRef (appendCreated (buildIndex snapshot) created) a =
      lookupRef (appendCreated (buildIndex snapshot) created) b := by
  constructor
  · unfold appendCreated
    apply foldl_dinsert_keys_nodup
    unfold buildIndex
    apply foldl_dinsert_keys_nodup
    exact List.nodup_nil
  · unfold lookupRef
    rw [h]

/-- C8 (witness): `" dell "` and `"DELL"` resolve identically in the index
built from a snapshot naming `Dell` and extended with a created `HP`, and
that index has pairwise-distinct keys. -/
theorem reference_index_unique_and_insensitive_witness :
    dictKeysNodup (appendCreated (buildIndex [("Dell".data, 1)]) [("HP".data, 2)]) ∧
    lookupRef (appendCreated (buildIndex [("Dell".data, 1)]) [("HP".data, 2)]) " dell ".data =
      lookupRef (appendCreated (buildIndex [("Dell".data, 1)]) [("HP".data, 2)]) "DELL".data :=
  reference_index_unique_and_insensitive [("Dell".data, 1)] [("HP".data, 2)]
    " dell ".data "DELL".data (by decide)

/-- C6 (counterexample): the device's category `Tablet` is absent while the
default category `Desktop` exists remotely and the manufacturer resolves;
the model phase registers the model under the default category, yet the
asset phase excludes the device — refuting the claim that such a device
continues through asset reconciliation. -/
theorem category_fallback_counterexample :
    modelPhaseEntry exRowTablet exManus exCats = some ("m1".data, 3, 5) ∧
    dget (pyLower DEFAULT_CATEGORY_NAME) exCats = some 5 ∧
    assetPhaseIds exRowTablet exManus exCats exModels = none := by
  exact ⟨by decide, by decide, by decide⟩

/-- C6 (amended): the fallback to the default category applies only to
model collection; in the asset-reconciliation phase the device's own
category name is looked up again with no fallback, so a device whose
category name is absent from the category index is always excluded there —
even when the default category exists — while the model phase still
registers its model under the default category. -/
theorem category_fallback_model_only (row : BigfixRow)
    (manus cats : List (PyStr × Nat)) (models : List (ModelKey × Nat))
    (hcat : dget (pyLower (pyStrip row.deviceType)) cats = none) :
    assetPhaseIds row manus cats models = none ∧
    (∀ mid cid, dget (pyLower (pyStrip row.manufacturer)) manus = some mid →
      mid ≠ 0 → dget (pyLower DEFAULT_CATEGORY_NAME) cats = some cid → cid ≠ 0 →
      modelPhaseEntry row manus cats = some (pyStrip row.model, mid, cid)) := by
  constructor
  · unfold assetPhaseIds
    rw [hcat]
    simp [pyTruthy]
  · intro mid cid hmid hmid0 hcid hcid0
    unfold modelPhaseEntry
    rw [hmid, hcat, hcid]
    simp [pyTruthy, hmid0, hcid0]

/-- C6 (witness): the amended statement evaluated at the `Tablet` device:
the asset phase skips it and the model phase uses the default category. -/
theorem category_fallback_model_only_witness :
    assetPhaseIds exRowTablet exManus exCats exModels = none ∧
    (∀ mid cid, dget (pyLower (pyStrip exRowTablet.manufacturer)) exManus = some mid →
      mid ≠ 0 → dget (pyLower DEFAULT_CATEGORY_NAME) exCats = some cid → cid ≠ 0 →
      modelPhaseEntry exRowTablet exManus exCats =
        some (pyStrip exRowTablet.model, mid, cid)) :=
  category_fallback_model_only exRowTablet exManus exCats exModels (by decide)

theorem getLast?_mem_of_eq {α : Type} {l : List α} {a : α} (h : l.getLast? = some a) :
    a ∈ l := by
  obtain ⟨hne, heq⟩ := List.mem_getLast?_eq_getLast (show a ∈ l.getLast? from h ▸ rfl)
  rw [heq]
  exact List.getLast_mem hne

theorem find?_eq_of_nodup_map {α β : Type} [DecidableEq β] (f : α → β) :
    ∀ (l : List α) (a : α), (l.map f).Nodup → a ∈ l →
      l.find? (fun x => decide (f x = f a)) = some a := by
  intro l
  induction l with
  | nil => intro a _ h; exact absurd h (List.not_mem_nil a)
  | cons b rest ih =>
    intro a hnd ha
    rw [List.map_cons, List.nodup_cons] at hnd
    obtain ⟨hnb, hndrest⟩ := hnd
    by_cases hfb : f b = f a
    · have hab : a = b := by
        rcases List.mem_cons.mp ha with h | h
        · exact h
        · exact absurd (hfb ▸ List.mem_map_of_mem f h) hnb
      rw [List.find?_cons_of_pos _ (by simpa using hfb), hab]
    · have ha' : a ∈ rest := by
        rcases List.mem_cons.mp ha with h | h
        · exact absurd (by rw [h]) hfb
        · exact h
      rw [List.find?_cons_of_neg _ (by simpa using hfb)]
      exact ih a hndrest ha'

theorem cacheEntryFor_mem {r : Remote} {s : PyStr} {a : RemoteAsset}
    (h : cacheEntryFor r s = some a) : a ∈ r.assets ∧ pyUpper a.tag = s := by
  have hmf : a ∈ r.assets.filter (fun a => decide (pyUpper a.tag = s)) :=
    getLast?_mem_of_eq h
  obtain ⟨hm, hp⟩ := List.mem_filter.mp hmf
  exact ⟨hm, by simpa using hp⟩

theorem find?_aid_of_mem {r : Remote} (hwf : RemoteWF r) {a : RemoteAsset}
    (ha : a ∈ r.assets) :
    r.assets.find? (fun x => decide (x.aid = a.aid)) = some a :=
  find?_eq_of_nodup_map (·.aid) r.assets a hwf.1 ha

theorem getDetails_of_mem {r : Remote} (hwf : RemoteWF r) {a : RemoteAsset}
    (ha : a ∈ r.assets) : getDetails r a.aid = (a.status, a.assignedTo) := by
  unfold getDetails
  rw [find?_aid_of_mem hwf ha]

theorem getMarker_of_mem {r : Remote} (hwf : RemoteWF r) {a : RemoteAsset}
    (ha : a ∈ r.assets) : getMarker r a.aid = a.marker := by
  unfold getMarker
  rw [find?_aid_of_mem hwf ha]

theorem RemoteWF_setAsset {r : Remote} (hwf : RemoteWF r) (aid : Nat)
    (f : RemoteAsset → RemoteAsset) (hf : ∀ a, (f a).aid = a.aid) :
    RemoteWF (setAsset r aid f) := by
  have hassets : (setAsset r aid f).assets =
      r.assets.map (fun a => if a.aid = aid then f a else a) := rfl
  have hkeys : ((setAsset r aid f).assets.map (·.aid)) = r.assets.map (·.aid) := by
    rw [hassets, List.map_map]
    apply List.map_congr_left
    intro a _
    by_cases h : a.aid = aid
    · simp [Function.comp, h, hf]
    · simp [Function.comp, h]
  constructor
  · rw [hkeys]; exact hwf.1
  · intro b hb
    rcases List.mem_map.mp hb with ⟨a, ha, hab⟩
    have : b.aid = a.aid := by
      rw [← hab]
      by_cases h : a.aid = aid
      · simp [h, hf]
      · simp [h]
    rw [this]
    exact hwf.2 a ha

theorem cacheEntryFor_setAsset (r : Remote) (aid : Nat)
    (f : RemoteAsset → RemoteAsset) (hf : ∀ a, (f a).tag = a.tag) (s : PyStr) :
    cacheEntryFor (setAsset r aid f) s =
      (cacheEntryFor r s).map (fun a => if a.aid = aid then f a else a) := by
  unfold cacheEntryFor
  have hassets : (setAsset r aid f).assets =
      r.assets.map (fun a => if a.aid = aid then f a else a) := rfl
  rw [hassets, List.filter_map, List.getLast?_map]
  have hfc : List.filter
      ((fun a => decide (pyUpper a.tag = s)) ∘ fun a => if a.aid = aid then f a else a)
      r.assets = List.filter (fun a => decide (pyUpper a.tag = s)) r.assets := by
    apply List.filter_congr
    intro a _
    by_cases h : a.aid = aid
    · simp [Function.comp, h, hf]
    · simp [Function.comp, h]
  rw [hfc]

theorem getDetails_setAsset_self {r : Remote} (hwf : RemoteWF r) {a : RemoteAsset}
    (ha : a ∈ r.assets) (f : RemoteAsset → RemoteAsset) (hf : ∀ x, (f x).aid = x.aid) :
    getDetails (setAsset r a.aid f) a.aid = ((f a).status, (f a).assignedTo) := by
  have hmem : f a ∈ (setAsset r a.aid f).assets := by
    show f a ∈ r.assets.map _
    exact List.mem_map.mpr ⟨a, ha, by simp⟩
  have := getDetails_of_mem (RemoteWF_setAsset hwf a.aid f hf) hmem
  rw [hf a] at this
  exact this

theorem processDevice_noop (dId coId : Nat) (r : Remote) (row : BigfixRow)
    (resolved : Option Nat) (hwf : RemoteWF r) (a : RemoteAsset)
    (hentry : cacheEntryFor r (pyUpper (pyStrip row.serial)) = some a)
    (htime : rowTime row ≤ cachedTime a)
    (hres : ∀ uid, resolved = some uid → a.status = coId ∧ a.assignedTo = some uid) :
    (processDevice dId coId r row resolved).1 = [] := by
  have ha : a ∈ r.assets := (cacheEntryFor_mem hentry).1
  have hdet : getDetails r a.aid = (a.status, a.assignedTo) := getDetails_of_mem hwf ha
  have hpatch : ¬rowTime row > cachedTime a := not_lt.mpr htime
  simp only [processDevice, hentry]
  cases resolved with
  | none => simp [hpatch]
  | some uid =>
    obtain ⟨hst, hasg⟩ := hres uid rfl
    simp [checkoutWorkflow, hpatch, hdet, hst, hasg]


theorem statusFix_skip (dId : Nat) (r : Remote) (aid : Nat)
    (h : (getDetails r aid).1 = dId) : statusFix dId r aid = ([], r) := by
  simp [statusFix, h]

theorem checkoutWorkflow_post_good (dId coId uid : Nat) (r : Remote) (hwf : RemoteWF r)
    (a : RemoteAsset) (s : PyStr) (hentry : cacheEntryFor r s = some a)
    (hgood : a.status = dId ∨ (a.status = coId ∧ a.assignedTo = some uid)) :
    RemoteWF (checkoutWorkflow dId coId r a.aid uid).2 ∧
    ∃ b : RemoteAsset,
      cacheEntryFor (checkoutWorkflow dId coId r a.aid uid).2 s = some b ∧
      b.marker = a.marker ∧ b.status = coId ∧ b.assignedTo = some uid := by
  have ha : a ∈ r.assets := (cacheEntryFor_mem hentry).1
  have hdet : getDetails r a.aid = (a.status, a.assignedTo) := getDetails_of_mem hwf ha
  have hunf : checkoutWorkflow dId coId r a.aid uid =
      if (getDetails r a.aid).2 = some uid ∧ (getDetails r a.aid).1 = coId then ([], r)
      else
        ((statusFix dId r a.aid).1 ++
            (checkinStep dId (statusFix dId r a.aid).2 a.aid).1 ++
            [Call.checkout a.aid uid],
         setAsset (checkinStep dId (statusFix dId r a.aid).2 a.aid).2 a.aid
           (fun x => { x with status := coId, assignedTo := some uid })) := rfl
  by_cases hnoop : (getDetails r a.aid).2 = some uid ∧ (getDetails r a.aid).1 = coId
  · have hcw : checkoutWorkflow dId coId r a.aid uid = ([], r) := by
      rw [hunf, if_pos hnoop]
    rw [hcw]
    rw [hdet] at hnoop
    exact ⟨hwf, a, hentry, rfl, hnoop.2, hnoop.1⟩
  · have hst : a.status = dId := by
      rcases hgood with h | ⟨h1, h2⟩
      · exact h
      · exfalso
        apply hnoop
        rw [hdet]
        exact ⟨h2, h1⟩
    have hsf : statusFix dId r a.aid = ([], r) :=
      statusFix_skip dId r a.aid (by rw [hdet]; exact hst)
    cases hasg : a.assignedTo with
    | none =>
      have hcs : checkinStep dId r a.aid = ([], r) := by
        simp [checkinStep, hdet, hasg]
      have hsnd : (checkoutWorkflow dId coId r a.aid uid).2 =
          setAsset r a.aid (fun x => { x with status := coId, assignedTo := some uid }) := by
        rw [hunf, if_neg hnoop]
        show setAsset (checkinStep dId (statusFix dId r a.aid).2 a.aid).2 a.aid _ = _
        rw [hsf]
        show setAsset (checkinStep dId r a.aid).2 a.aid _ = _
        rw [hcs]
      rw [hsnd]
      constructor
      · exact RemoteWF_setAsset hwf a.aid _ (fun x => rfl)
      · refine ⟨{ a with status := coId, assignedTo := some uid }, ?_, rfl, rfl, rfl⟩
        rw [cacheEntryFor_setAsset r a.aid
            (fun x => { x with status := coId, assignedTo := some uid })
            (fun x => rfl) s, hentry]
        simp
    | some v =>
      have hcs : checkinStep dId r a.aid =
          ([Call.checkin a.aid],
           setAsset r a.aid (fun x => { x with status := dId, assignedTo := none })) := by
        simp [checkinStep, hdet, hasg]
      have hsnd : (checkoutWorkflow dId coId r a.aid uid).2 =
          setAsset
            (setAsset r a.aid (fun x => { x with status := dId, assignedTo := none }))
            a.aid (fun x => { x with status := coId, assignedTo := some uid }) := by
        rw [hunf, if_neg hnoop]
        show setAsset (checkinStep dId (statusFix dId r a.aid).2 a.aid).2 a.aid _ = _
        rw [hsf]
        show setAsset (checkinStep dId r a.aid).2 a.aid _ = _
        rw [hcs]
      rw [hsnd]
      constructor
      · exact RemoteWF_setAsset
          (RemoteWF_setAsset hwf a.aid
            (fun x => { x with status := dId, assignedTo := none }) (fun x => rfl))
          a.aid (fun x => { x with status := coId, assignedTo := some uid })
          (fun x => rfl)
      · refine ⟨{ a with status := coId, assignedTo := some uid }, ?_, rfl, rfl, rfl⟩
        rw [cacheEntryFor_setAsset _ a.aid
            (fun x => { x with status := coId, assignedTo := some uid })
            (fun x => rfl) s,
          cacheEntryFor_setAsset r a.aid
            (fun x => { x with status := dId, assignedTo := none })
            (fun x => rfl) s, hentry]
        simp

theorem RemoteWF_create (r : Remote) (hwf : RemoteWF r) (new : RemoteAsset)
    (hnid : new.aid = r.nextId) :
    RemoteWF ⟨r.assets ++ [new], r.nextId + 1⟩ := by
  constructor
  · show ((r.assets ++ [new]).map (·.aid)).Nodup
    rw [List.map_append, List.nodup_append]
    refine ⟨hwf.1, List.nodup_singleton _, ?_⟩
    intro x hx hx2
    rcases List.mem_map.mp hx with ⟨b, hb, hbx⟩
    have h1 : x = new.aid := by simpa using hx2
    have h2 := hwf.2 b hb
    rw [hnid] at h1
    omega
  · intro b hb
    rcases List.mem_append.mp hb with h | h
    · exact Nat.lt_succ_of_lt (hwf.2 b h)
    · rw [List.mem_singleton.mp h, hnid]
      exact Nat.lt_succ_self _

theorem cacheEntryFor_create (r : Remote) (new : RemoteAsset) (n : Nat) (s : PyStr)
    (hmatch : pyUpper new.tag = s) :
    cacheEntryFor ⟨r.assets ++ [new], n⟩ s = some new := by
  unfold cacheEntryFor
  show ((r.assets ++ [new]).filter _).getLast? = _
  rw [List.filter_append]
  have hone : [new].filter (fun a => decide (pyUpper a.tag = s)) = [new] := by
    simp [hmatch]
  rw [hone, List.getLast?_concat]

theorem processDevice_post (dId coId : Nat) (r : Remote) (row : BigfixRow)
    (resolved : Option Nat) (hwf : RemoteWF r)
    (hcond : ∀ uid, resolved = some uid →
      ∀ ex, cacheEntryFor r (pyUpper (pyStrip row.serial)) = some ex →
        ex.status = dId ∨ (ex.status = coId ∧ ex.assignedTo = some uid)) :
    RemoteWF (processDevice dId coId r row resolved).2 ∧
    ∃ a : RemoteAsset,
      cacheEntryFor (processDevice dId coId r row resolved).2
        (pyUpper (pyStrip row.serial)) = some a ∧
      rowTime row ≤ cachedTime a ∧
      (∀ uid, resolved = some uid → a.status = coId ∧ a.assignedTo = some uid) := by
  cases hent : cacheEntryFor r (pyUpper (pyStrip row.serial)) with
  | none =>
    have hnew : cacheEntryFor
        (⟨r.assets ++ [⟨r.nextId, pyStrip row.serial, computer_name_for_asset row,
            some (rowTime row), dId, none⟩], r.nextId + 1⟩ : Remote)
        (pyUpper (pyStrip row.serial)) =
        some ⟨r.nextId, pyStrip row.serial, computer_name_for_asset row,
          some (rowTime row), dId, none⟩ :=
      cacheEntryFor_create r _ _ _ rfl
    have hwf0 : RemoteWF (⟨r.assets ++ [⟨r.nextId, pyStrip row.serial,
        computer_name_for_asset row, some (rowTime row), dId, none⟩],
        r.nextId + 1⟩ : Remote) := RemoteWF_create r hwf _ rfl
    cases resolved with
    | none =>
      have hpd : (processDevice dId coId r row none).2 =
          ⟨r.assets ++ [⟨r.nextId, pyStrip row.serial, computer_name_for_asset row,
            some (rowTime row), dId, none⟩], r.nextId + 1⟩ := by
        simp [processDevice, hent]
      rw [hpd]
      refine ⟨hwf0, _, hnew, le_refl _, ?_⟩
      intro uid h
      exact Option.noConfusion h
    | some uid =>
      have hpd : (processDevice dId coId r row (some uid)).2 =
          (checkoutWorkflow dId coId
            ⟨r.assets ++ [⟨r.nextId, pyStrip row.serial, computer_name_for_asset row,
              some (rowTime row), dId, none⟩], r.nextId + 1⟩ r.nextId uid).2 := by
        simp [processDevice, hent]
      obtain ⟨hwf1, b, hb, hbm, hbs, hba⟩ :=
        checkoutWorkflow_post_good dId coId uid _ hwf0 _ _ hnew (Or.inl rfl)
      rw [hpd]
      refine ⟨hwf1, b, hb, ?_, ?_⟩
      · show rowTime row ≤ b.marker.getD datetimeMin
        rw [hbm]
        exact le_refl _
      · intro u h
        injection h with h
        rw [← h]
        exact ⟨hbs, hba⟩
  | some ex =>
    have hexmem : ex ∈ r.assets := (cacheEntryFor_mem hent).1
    have hmar : getMarker r ex.aid = ex.marker := getMarker_of_mem hwf hexmem
    by_cases hpt : rowTime row > cachedTime ex
    · have hneq : ¬getMarker r ex.aid = some (rowTime row) := by
        rw [hmar]
        intro hh
        rw [cachedTime, hh] at hpt
        simp at hpt
      have hpentry : cacheEntryFor
          (setAsset r ex.aid (fun a => { a with marker := some (rowTime row) }))
          (pyUpper (pyStrip row.serial)) =
          some { ex with marker := some (rowTime row) } := by
        rw [cacheEntryFor_setAsset r ex.aid
          (fun a => { a with marker := some (rowTime row) }) (fun x => rfl) _, hent]
        simp
      have hwfp : RemoteWF
          (setAsset r ex.aid (fun a => { a with marker := some (rowTime row) })) :=
        RemoteWF_setAsset hwf ex.aid _ (fun x => rfl)
      cases resolved with
      | none =>
        have hpd : (processDevice dId coId r row none).2 =
            setAsset r ex.aid (fun a => { a with marker := some (rowTime row) }) := by
          simp [processDevice, hent, hpt, hneq]
        rw [hpd]
        refine ⟨hwfp, _, hpentry, le_refl _, ?_⟩
        intro uid h
        exact Option.noConfusion h
      | some uid =>
        have hpd : (processDevice dId coId r row (some uid)).2 =
            (checkoutWorkflow dId coId
              (setAsset r ex.aid (fun a => { a with marker := some (rowTime row) }))
              ex.aid uid).2 := by
          simp [processDevice, hent, hpt, hneq]
        have hgood := hcond uid rfl ex hent
        obtain ⟨hwf1, b, hb, hbm, hbs, hba⟩ :=
          checkoutWorkflow_post_good dId coId uid _ hwfp
            { ex with marker := some (rowTime row) } _ hpentry hgood
        rw [hpd]
        refine ⟨hwf1, b, hb, ?_, ?_⟩
        · show rowTime row ≤ b.marker.getD datetimeMin
          rw [hbm]
          exact le_refl _
        · intro u h
          injection h with h
          rw [← h]
          exact ⟨hbs, hba⟩
    · cases resolved with
      | none =>
        have hpd : (processDevice dId coId r row none).2 = r := by
          simp [processDevice, hent, hpt]
        rw [hpd]
        refine ⟨hwf, ex, hent, le_of_not_lt hpt, ?_⟩
        intro uid h
        exact Option.noConfusion h
      | some uid =>
        have hpd : (processDevice dId coId r row (some uid)).2 =
            (checkoutWorkflow dId coId r ex.aid uid).2 := by
          simp [processDevice, hent, hpt]
        have hgood := hcond uid rfl ex hent
        obtain ⟨hwf1, b, hb, hbm, hbs, hba⟩ :=
          checkoutWorkflow_post_good dId coId uid r hwf ex _ hent hgood
        rw [hpd]
        refine ⟨hwf1, b, hb, ?_, ?_⟩
        · show rowTime row ≤ b.marker.getD datetimeMin
          rw [hbm]
          exact le_of_not_lt hpt
        · intro u h
          injection h with h
          rw [← h]
          exact ⟨hbs, hba⟩

/-- C3 (counterexample): on an unchanged feed and the remote state left by
a fully successful first pass, the second pass still issues a mutating
call. The first pass had to force the status to `Ready to Deploy`; that
direct update overwrites the notes with a sentence lacking the
`BigFix Last Report:` marker, so the second pass reads the sentinel
minimum timestamp, finds the feed time strictly newer, and patches the
notes again — one `PUT /hardware/{id}`. -/
theorem second_pass_counterexample :
    (processDevice 1 2 exRemoteBad exRowS9 (some 77)).1 =
      [Call.updateAsset 1 (some 1), Call.checkout 1 77] ∧
    (processDevice 1 2 (processDevice 1 2 exRemoteBad exRowS9 (some 77)).2
        exRowS9 (some 77)).1 = [Call.updateAsset 1 none] := by
  exact ⟨by decide, by decide⟩

/-- C3 (amended): running the per-device reconciliation a second time on
the remote state produced by a fully successful first pass (unchanged
feed, same resolved user) issues zero mutating calls, provided the first
pass needed no direct status update for the device: its asset was absent
(created fresh), or already in the check-in status, or already checked out
to the resolved user. When a direct status update was issued, it overwrote
the notes marker and the second pass re-patches the notes. -/
theorem second_pass_no_mutations (dId coId : Nat) (r : Remote) (row : BigfixRow)
    (resolved : Option Nat) (hwf : RemoteWF r)
    (hcond : ∀ uid, resolved = some uid →
      ∀ ex, cacheEntryFor r (pyUpper (pyStrip row.serial)) = some ex →
        ex.status = dId ∨ (ex.status = coId ∧ ex.assignedTo = some uid)) :
    (processDevice dId coId (processDevice dId coId r row resolved).2
      row resolved).1 = [] := by
  obtain ⟨hwf1, a, hentry, htime, hres⟩ :=
    processDevice_post dId coId r row resolved hwf hcond
  exact processDevice_noop dId coId _ row resolved hwf1 a hentry htime hres

/-- C3 (witness): asset `s9` is already in the check-in status, so the
first pass only re-checks it out; the second pass issues no calls. -/
theorem second_pass_no_mutations_witness :
    (processDevice 1 2 (processDevice 1 2 exRemoteGood exRowS9 (some 77)).2
      exRowS9 (some 77)).1 = [] :=
  second_pass_no_mutations 1 2 exRemoteGood exRowS9 (some 77)
    ⟨by decide, by decide⟩
    (by
      intro uid h ex hex
      cases h
      have hA : cacheEntryFor exRemoteGood (pyUpper (pyStrip exRowS9.serial)) =
          some ⟨1, "s9".data, "pc9".data, some 5, 1, some 44⟩ := by decide
      rw [hA] at hex
      injection hex with h2
      rw [← h2]
      exact Or.inl rfl)

/-- C10: when the `Computer Name` field is empty or whitespace-only, the
display name used for the asset is the device's trimmed serial:
`computer_name_for_asset` returns it, the create call for an absent asset
carries it as the asset name, and the hostname string driving the
priority-3/4 matching is its lower-casing. -/
theorem display_name_serial_fallback (row : BigfixRow)
    (h : (pyStrip row.computerName).isEmpty = true) :
    computer_name_for_asset row = pyStrip row.serial ∧
    pyLower (computer_name_for_asset row) = pyLower (pyStrip row.serial) ∧
    (∀ dId coId (r : Remote) resolved,
      cacheEntryFor r (pyUpper (pyStrip row.serial)) = none →
      Call.createAsset (pyStrip row.serial) (pyStrip row.serial) ∈
        (processDevice dId coId r row resolved).1) := by
  have h1 : computer_name_for_asset row = pyStrip row.serial := by
    unfold computer_name_for_asset
    rw [if_neg (fun hh => hh.2 h)]
  refine ⟨h1, by rw [h1], ?_⟩
  intro dId coId r resolved hent
  cases resolved with
  | none =>
    have hpd : (processDevice dId coId r row none).1 =
        [Call.createAsset (pyStrip row.serial) (computer_name_for_asset row)] := by
      simp [processDevice, hent]
    rw [hpd, h1]
    exact List.mem_singleton.mpr rfl
  | some uid =>
    have hpd : (processDevice dId coId r row (some uid)).1 =
        [Call.createAsset (pyStrip row.serial) (computer_name_for_asset row)] ++
          (checkoutWorkflow dId coId
            ⟨r.assets ++ [⟨r.nextId, pyStrip row.serial, computer_name_for_asset row,
              some (rowTime row), dId, none⟩], r.nextId + 1⟩ r.nextId uid).1 := by
      simp [processDevice, hent]
    rw [hpd, h1]
    exact List.mem_append_left _ (List.mem_singleton.mpr rfl)

/-- C10 (witness): the whitespace-named device is created under its serial
`s10` as display name. -/
theorem display_name_serial_fallback_witness :
    computer_name_for_asset exRowNoName = pyStrip exRowNoName.serial ∧
    Call.createAsset (pyStrip exRowNoName.serial) (pyStrip exRowNoName.serial) ∈
      (processDevice 1 2 ⟨[], 1⟩ exRowNoName (some 7)).1 :=
  ⟨(display_name_serial_fallback exRowNoName (by decide)).1,
   (display_name_serial_fallback exRowNoName (by decide)).2.2 1 2 ⟨[], 1⟩ (some 7)
     (by decide)⟩

/-- C9: when a required status label is absent or falsy (no status labels
at all, or `Ready to Deploy` or `Deployed` unresolvable) or the default
location `Office` or the target company is absent or falsy remotely, the
run issues no asset-level mutating call: no hardware create, update,
checkin, or checkout appears in its trace. -/
theorem fatal_preconditions_block_asset_calls (env : Env)
    (h : env.statusList.isEmpty = true ∨
      pyTruthy (dget (pyLower DEFAULT_STATUS_LABEL) (buildIndex env.statusList)) = false ∨
      pyTruthy (dget (pyLower CHECKED_OUT_STATUS_LABEL) (buildIndex env.statusList)) = false ∨
      pyTruthy (dget (pyLower DEFAULT_LOCATION_NAME) (buildIndex env.locList)) = false ∨
      pyTruthy (dget (pyLower TARGET_COMPANY_NAME) (buildIndex env.compList)) = false) :
    ∀ c ∈ mainRun env, c.isAssetMutation = false := by
  intro c hc
  by_cases h0 : env.statusList.isEmpty = true
  · have hm : mainRun env = [] := by simp [mainRun, h0]
    rw [hm] at hc
    exact absurd hc (List.not_mem_nil c)
  have h0' : env.statusList.isEmpty = false := Bool.eq_false_iff.mpr h0
  by_cases h1 :
      pyTruthy (dget (pyLower DEFAULT_STATUS_LABEL) (buildIndex env.statusList)) = true
  case neg =>
    have h1' := Bool.eq_false_iff.mpr h1
    have hm : mainRun env = [] := by simp [mainRun, h0', h1']
    rw [hm] at hc
    exact absurd hc (List.not_mem_nil c)
  case pos =>
  by_cases h2 :
      pyTruthy (dget (pyLower CHECKED_OUT_STATUS_LABEL) (buildIndex env.statusList)) = true
  case neg =>
    have h2' := Bool.eq_false_iff.mpr h2
    have hm : mainRun env = [] := by simp [mainRun, h0', h1, h2']
    rw [hm] at hc
    exact absurd hc (List.not_mem_nil c)
  case pos =>
  have h4 : pyTruthy (dget (pyLower DEFAULT_LOCATION_NAME) (buildIndex env.locList)) = false ∨
      pyTruthy (dget (pyLower TARGET_COMPANY_NAME) (buildIndex env.compList)) = false := by
    rcases h with h | h | h | h | h
    · exact absurd h h0
    · rw [h] at h1; exact Bool.noConfusion h1
    · rw [h] at h2; exact Bool.noConfusion h2
    · exact Or.inl h
    · exact Or.inr h
  have hpre : c ∈
      (syncDirectoryUsers env.dirRows (buildUserDict env.userList) env.nextUid).1.map
        Call.createUser ++
      (manuPhase (buildBigfixData env.bigfixRows) (buildIndex env.manuList)
        env.nextEntityId).1.map Call.createManufacturer ++
      (modelPhase
        (collectModels (buildBigfixData env.bigfixRows)
          (manuPhase (buildBigfixData env.bigfixRows) (buildIndex env.manuList)
            env.nextEntityId).2.1 (buildIndex env.catList))
        env.modelList
        (manuPhase (buildBigfixData env.bigfixRows) (buildIndex env.manuList)
          env.nextEntityId).2.2).1.map Call.createModel := by
    rcases h4 with h4 | h4
    · have hm := hc
      simp only [mainRun, h0', h1, h2, h4] at hm
      simpa [h0', h1, h2, h4] using hm
    · by_cases h5 :
          pyTruthy (dget (pyLower DEFAULT_LOCATION_NAME) (buildIndex env.locList)) = true
      case neg =>
        have h5' := Bool.eq_false_iff.mpr h5
        have hm := hc
        simpa [mainRun, h0', h1, h2, h5'] using hm
      case pos =>
        have hm := hc
        simpa [mainRun, h0', h1, h2, h5, h4] using hm
  rcases List.mem_append.mp hpre with hc12 | hc3
  · rcases List.mem_append.mp hc12 with hc1 | hc2
    · rcases List.mem_map.mp hc1 with ⟨x, _, hx⟩
      rw [← hx]
      rfl
    · rcases List.mem_map.mp hc2 with ⟨x, _, hx⟩
      rw [← hx]
      rfl
  · rcases List.mem_map.mp hc3 with ⟨x, _, hx⟩
    rw [← hx]
    rfl

/-- C9 (witness): with the default location absent the run still creates
the new directory user `carol`, but that call is not an asset mutation —
and by the theorem no call of the trace is. -/
theorem fatal_preconditions_block_asset_calls_witness :
    Call.createUser "carol".data ∈ mainRun exEnvNoLoc ∧
    (Call.createUser "carol".data).isAssetMutation = false :=
  ⟨by decide,
   fatal_preconditions_block_asset_calls exEnvNoLoc
     (Or.inr (Or.inr (Or.inr (Or.inl (by decide)))))
     (Call.createUser "carol".data) (by decide)⟩
